import Mathlib

/-!
Shallow embedding of the SOFA-file loading pipeline of `utils/makemhr/loadsofa.cpp`
(openal-soft).  Floating-point doubles/floats are modelled as exact rationals,
machine unsigned integers as naturals.  The grid state mutated in place by the
C++ code is threaded explicitly; the flat HRIR storage vector is modelled as a
function from positions to values.
-/

namespace LoadSofa

/-- Truncation toward zero, as C `fmod` applies to the quotient. -/
def ratTrunc (q : ℚ) : ℤ := if 0 ≤ q then ⌊q⌋ else ⌈q⌉

/-- C `fmod x y`: `x - y * trunc (x / y)` (result has the sign of `x`). -/
def cfmod (x y : ℚ) : ℚ := x - y * ratTrunc (x / y)

/-- C `std::round`: round half away from zero (Mathlib `round` rounds half up,
which agrees on nonnegative arguments). -/
def cround (q : ℚ) : ℤ := if 0 ≤ q then round q else -round (-q)

/-- `static_cast<uint>` of the rounded value; the code only applies it to
nonnegative in-range values, where truncation to `ℕ` is exact. -/
def croundUint (q : ℚ) : ℕ := (cround q).toNat

/-- The azimuth correction applied to `aer[0]` before snapping
(`loadsofa.cpp` lines 290-293): at `|elevation| >= 89.999` the azimuth is
forced to `0`; otherwise it is replaced by `fmod(360 - azimuth, 360)`. -/
def adjustAz (a e : ℚ) : ℚ :=
  if 89999/1000 ≤ |e| then 0 else cfmod (360 - a) 360

/-- Nearest-elevation-ring match (`loadsofa.cpp` lines 300-304): `evscale` is
the angular step between rings, `ef` the interpolated ring position of the
measurement, rounded to `ei`; the measurement is skipped (`none`) when the
residual angular error reaches `0.1` degrees. -/
def matchEv (evCount : ℕ) (e : ℚ) : Option ℕ :=
  let evscale : ℚ := 180 / ((evCount - 1 : ℕ) : ℚ)
  let ef : ℚ := (90 + e) / evscale
  let ei : ℕ := croundUint ef
  let ef2 : ℚ := (ef - (ei : ℚ)) * evscale
  if 1/10 ≤ |ef2| then none else some ei

/-- Nearest-azimuth-slot match (`loadsofa.cpp` lines 306-311): analogous to
`matchEv`, except that the rounded index is wrapped modulo the ring's slot
count; the residual is computed from the unwrapped index. -/
def matchAz (azCount : ℕ) (a : ℚ) : Option ℕ :=
  let azscale : ℚ := 360 / (azCount : ℚ)
  let af : ℚ := a / azscale
  let ai : ℕ := croundUint af
  let af2 : ℚ := (af - (ai : ℚ)) * azscale
  if 1/10 ≤ |af2| then none else some (ai % azCount)

/-- The elevation angle of ring `i` (rings run pole to pole, `-90` to `90`). -/
def ringAngle (evCount : ℕ) (i : ℕ) : ℚ :=
  -90 + (i : ℚ) * (180 / ((evCount - 1 : ℕ) : ℚ))

/-- One azimuth slot (`HrirAzT`): its storage index, whether its channel views
have been set (models `!mIrs[0].empty()`), and its per-channel delays. -/
structure HrirAzT where
  mIndex : ℕ
  mIrsSet : Bool
  mDelays : ℕ → ℚ

instance : Inhabited HrirAzT := ⟨⟨0, false, fun _ => 0⟩⟩

/-- One elevation ring (`HrirEvT`): its azimuth slots. -/
structure HrirEvT where
  mAzs : List HrirAzT

instance : Inhabited HrirEvT := ⟨⟨[]⟩⟩

/-- One distance field (`HrirFdT`). -/
structure HrirFdT where
  mDistance : ℚ
  mEvStart : ℕ
  mEvs : List HrirEvT

instance : Inhabited HrirFdT := ⟨⟨0, 0, []⟩⟩

/-- The directional grid (`HrirDataT`): fields, IR bookkeeping and the flat
HRIR storage (`mHrirsBase`) as a position-to-value function. `channels` is
`2` for `CT_STEREO`, else `1`. -/
structure HrirDataT where
  mFds : List HrirFdT
  mIrCount : ℕ
  mIrSize : ℕ
  mIrPoints : ℕ
  mIrRate : ℕ
  channels : ℕ
  storage : ℕ → ℚ

/-- Declared delay dimensionality (`DelayType`). -/
inductive DelayType where
  | None
  | I_R
  | M_R
deriving DecidableEq

/-- The relevant contents of a loaded `MYSOFA_HRTF`: measurement, receiver and
sample counts, the spherical coordinates of each measurement as produced by
the library call `mysofa_c2s` (azimuth, elevation, radius), and the flat
`DataIR` / `DataDelay` value arrays. -/
structure SofaData where
  M : ℕ
  R : ℕ
  N : ℕ
  aer : ℕ → ℚ × ℚ × ℚ
  irValues : ℕ → ℚ
  delayValues : ℕ → ℚ

/-- The impulse response of measurement `si`, channel `ti`:
`DataIR.values[(si*R + ti)*N ... +N]`. -/
def measIr (sofa : SofaData) (si ti : ℕ) : List ℚ :=
  (List.range sofa.N).map fun j => sofa.irValues ((si * sofa.R + ti) * sofa.N + j)

/-- `find_if` over the fields by distance (`loadsofa.cpp` lines 295-298):
index of the first field within `0.001` of the measurement radius. -/
def findField (fds : List HrirFdT) (r : ℚ) : Option ℕ :=
  fds.findIdx? fun fld => decide (|r - fld.mDistance| < 1/1000)

/-- The azimuth slot at coordinates `(fi, ei, ai)`. -/
def getAz (st : HrirDataT) (fi ei ai : ℕ) : HrirAzT :=
  ((st.mFds.getD fi default).mEvs.getD ei default).mAzs.getD ai default

/-- Snapping one measurement with polar coordinates `(a, e, r)` to grid
coordinates, `none` meaning the measurement is silently dropped
(`loadsofa.cpp` lines 290-311). -/
def snapMeas (st : HrirDataT) (a e r : ℚ) : Option (ℕ × ℕ × ℕ) :=
  match findField st.mFds r with
  | none => none
  | some fi =>
    let fld := st.mFds.getD fi default
    match matchEv fld.mEvs.length e with
    | none => none
    | some ei =>
      let ev := fld.mEvs.getD ei default
      match matchAz ev.mAzs.length (adjustAz a e) with
      | none => none
      | some ai => some (fi, ei, ai)

/-- Overwrite `src.length` entries of the flat buffer starting at `off`. -/
def writeSeg (buf : ℕ → ℚ) (off : ℕ) (src : List ℚ) : ℕ → ℚ :=
  fun p => if off ≤ p ∧ p - off < src.length then src.getD (p - off) 0 else buf p

/-- Start of the storage region of slot `idx`, channel `ti`:
`(mIrCount*ti + idx) * mIrSize` (`loadsofa.cpp` lines 323-324). -/
def slotOffset (st : HrirDataT) (idx ti : ℕ) : ℕ :=
  (st.mIrCount * ti + idx) * st.mIrSize

/-- Whether the load constructs a resampler (`loadsofa.cpp` line 273):
only when a nonzero output rate differs from the source rate. -/
def useResampler (outRate rate : ℕ) : Bool :=
  outRate ≠ 0 && outRate ≠ rate

/-- Replace the slot at `(fi, ei, ai)`. -/
def setAz (st : HrirDataT) (fi ei ai : ℕ) (azd : HrirAzT) : HrirDataT :=
  let fld := st.mFds.getD fi default
  let ev := fld.mEvs.getD ei default
  let ev2 : HrirEvT := { ev with mAzs := ev.mAzs.set ai azd }
  let fld2 : HrirFdT := { fld with mEvs := fld.mEvs.set ei ev2 }
  { st with mFds := st.mFds.set fi fld2 }

/-- Assignment of measurement `si` to slot `(fi, ei, ai)` (`loadsofa.cpp`
lines 321-351): the impulse samples are copied (or resampled, when a
resampler is in use) into the slot's storage region per channel, the slot's
views become non-empty, and the per-channel delays are recorded divided by
`mIrRate`.  `resample` stands for `PPhaseResampler::process`, whose source is
not part of this component. -/
def assignMeas (sofa : SofaData) (delayType : DelayType) (outRate : ℕ)
    (resample : List ℚ → List ℚ) (st : HrirDataT) (si fi ei ai : ℕ) : HrirDataT :=
  let azd := getAz st fi ei ai
  let storage2 := (List.range st.channels).foldl (fun s ti =>
    writeSeg s (slotOffset st azd.mIndex ti)
      (if useResampler outRate st.mIrRate then resample (measIr sofa si ti)
       else measIr sofa si ti)) st.storage
  let azd2 : HrirAzT :=
    { azd with
      mIrsSet := true
      mDelays := fun ti =>
        if ti < st.channels then
          match delayType with
          | .None => azd.mDelays ti
          | .I_R => sofa.delayValues ti / (st.mIrRate : ℚ)
          | .M_R => sofa.delayValues (si * sofa.R + ti) / (st.mIrRate : ℚ)
        else azd.mDelays ti }
  setAz { st with storage := storage2 } fi ei ai azd2

/-- One iteration of the measurement loop of `load_proc` (`loadsofa.cpp`
lines 282-352).  The boolean is `false` exactly when the load aborts
(duplicate measurement); a measurement that matches no field, ring or slot is
skipped with the state unchanged. -/
def loadStep (sofa : SofaData) (delayType : DelayType) (outRate : ℕ)
    (resample : List ℚ → List ℚ) (st : HrirDataT) (si : ℕ) : HrirDataT × Bool :=
  let aer := sofa.aer si
  match snapMeas st aer.1 aer.2.1 aer.2.2 with
  | none => (st, true)
  | some (fi, ei, ai) =>
    if (getAz st fi ei ai).mIrsSet then (st, false)
    else (assignMeas sofa delayType outRate resample st si fi ei ai, true)

/-- The measurement loop over the given measurement indices, aborting at the
first failing step. -/
def loadLoop (sofa : SofaData) (delayType : DelayType) (outRate : ℕ)
    (resample : List ℚ → List ℚ) : HrirDataT → List ℕ → HrirDataT × Bool
  | st, [] => (st, true)
  | st, si :: rest =>
    let r := loadStep sofa delayType outRate resample st si
    if r.2 then loadLoop sofa delayType outRate resample r.1 rest else (r.1, false)

/-- `load_proc` (`loadsofa.cpp` lines 265-362): zero the storage
(`mHrirsBase.resize(..., 0.0)`), run the measurement loop over all `M`
measurements, and on success update `mIrRate`/`mIrPoints` when an output
resample rate is in effect. -/
def loadResponses (sofa : SofaData) (delayType : DelayType) (outRate : ℕ)
    (resample : List ℚ → List ℚ) (st : HrirDataT) : HrirDataT × Bool :=
  let st0 : HrirDataT := { st with storage := fun _ => 0 }
  let r := loadLoop sofa delayType outRate resample st0 (List.range sofa.M)
  if r.2 then
    if useResampler outRate r.1.mIrRate then
      ({ r.1 with
          mIrRate := outRate
          mIrPoints := min (⌈(r.1.mIrPoints : ℚ) * (outRate : ℚ) / (r.1.mIrRate : ℚ)⌉.toNat)
            r.1.mIrSize }, true)
    else (r.1, true)
  else (r.1, false)

/-- Whether a ring has at least one populated slot. -/
def ringHasData (ev : HrirEvT) : Bool := ev.mAzs.any (·.mIrsSet)

/-- Index of the first unpopulated slot of a ring, if any. -/
def firstUnsetIdx (azs : List HrirAzT) : Option ℕ :=
  azs.findIdx? fun a => !a.mIrsSet

/-- First `(ring, slot)` with an unpopulated slot among the given rings,
`ei0` being the absolute index of the first ring given. -/
def scanMissing : List HrirEvT → ℕ → Option (ℕ × ℕ)
  | [], _ => none
  | ev :: rest, ei0 =>
    match firstUnsetIdx ev.mAzs with
    | some ai => some (ei0, ai)
    | none => scanMissing rest (ei0 + 1)

/-- Outcome of validating one field. -/
inductive VRes where
  | ok (fd : HrirFdT)
  | missingField
  | missingRef (ei ai : ℕ)

/-- The completeness validator for one field (`loadsofa.cpp` lines 491-523):
find the first ring with any populated slot (none at all is the
missing-source-references failure), record it as `mEvStart`, then fail at the
first unpopulated slot at or after it. -/
def validateField (fd : HrirFdT) : VRes :=
  match fd.mEvs.findIdx? ringHasData with
  | none => .missingField
  | some s =>
    match scanMissing (fd.mEvs.drop s) s with
    | some (ei, ai) => .missingRef ei ai
    | none => .ok { fd with mEvStart := s }

/-- Index (within the upsampled signal) of the first sample of maximum
absolute amplitude: the tail recursion behind `argmaxAbs`. -/
def argmaxAbsAux : List ℚ → ℕ → ℕ → ℚ → ℕ
  | [], _, bi, _ => bi
  | x :: rest, i, bi, bv =>
    if bv < |x| then argmaxAbsAux rest (i + 1) i |x|
    else argmaxAbsAux rest (i + 1) bi bv

/-- `std::ranges::max_element(upsampled, std::less, abs)` as an index: the
first index whose absolute value is maximal (later elements replace the
current best only when strictly greater). -/
def argmaxAbs : List ℚ → ℕ
  | [] => 0
  | x :: rest => argmaxAbsAux rest 1 0 |x|

/-- The fixed upsampling factor used by onset detection
(`constexpr int OnsetRateMultiple`). -/
def OnsetRateMultiple : ℕ := 10

/-- Modelled from the spec: `PPhaseResampler::process` primed for the
`rate -> 10*rate` conversion (`polyphase_resampler` sources are not part of
this component; the spec specifies a polyphase resampler upsampling by the
fixed integer multiple 10).  Modelled as ideal 10x interpolation: output
sample `j` interpolates linearly between input samples `j / 10` and
`j / 10 + 1`, so an input impulse at `k` peaks exactly at output `10 * k`. -/
def upsample10 (h : List ℚ) : List ℚ :=
  (List.range (OnsetRateMultiple * h.length)).map fun j =>
    (1 - ((j % OnsetRateMultiple : ℕ) : ℚ) / 10) * h.getD (j / OnsetRateMultiple) 0 +
      (((j % OnsetRateMultiple : ℕ) : ℚ) / 10) * h.getD (j / OnsetRateMultiple + 1) 0

/-- `CalcHrirOnset` (`loadsofa.cpp` lines 239-248): upsample the impulse by
the fixed multiple, take the index of maximum absolute amplitude, and convert
it back to seconds at the original rate. -/
def calcHrirOnset (rate : ℕ) (hrir : List ℚ) : ℚ :=
  ((argmaxAbs (upsample10 hrir) : ℚ)) / ((OnsetRateMultiple : ℚ) * (rate : ℚ))

/-- The stored impulse of slot `idx`, channel `ti`, truncated to `mIrPoints`
(the view `azd.mIrs[ti].first(hData->mIrPoints)`). -/
def slotHrir (st : HrirDataT) (idx ti : ℕ) : List ℚ :=
  (List.range st.mIrPoints).map fun j => st.storage (slotOffset st idx ti + j)

/-- The onset step applied to one slot (`loadsofa.cpp` lines 559-567): each
channel's recorded delay is increased by the estimated onset of its stored
impulse. -/
def onsetAz (st : HrirDataT) (azd : HrirAzT) : HrirAzT :=
  { azd with mDelays := fun ti =>
      if ti < st.channels then
        azd.mDelays ti + calcHrirOnset st.mIrRate (slotHrir st azd.mIndex ti)
      else azd.mDelays ti }

/-- The onset step applied to one field: only rings at or after `mEvStart`
(`field.mEvs.subspan(field.mEvStart)`) are processed. -/
def onsetField (st : HrirDataT) (fd : HrirFdT) : HrirFdT :=
  { fd with mEvs := fd.mEvs.mapIdx fun ei ev =>
      if ei < fd.mEvStart then ev
      else { ev with mAzs := ev.mAzs.map (onsetAz st) } }

/-- `onset_proc` (`loadsofa.cpp` lines 547-571): the onset step over the
whole grid.  Only `mDelays` fields change, so the sequential C++ loop is a
map over slots. -/
def applyOnsets (st : HrirDataT) : HrirDataT :=
  { st with mFds := st.mFds.map (onsetField st) }

/-- State of the magnitude work distribution (`MagCalculator`): the shared
atomic cursor `mCurrent` and the history of successful claims as
`(worker, item)` pairs in the order the compare-and-swap operations took
effect. -/
structure MagState where
  current : ℕ
  claims : List (ℕ × ℕ)
deriving DecidableEq

/-- Initial `MagCalculator` state: cursor at `0`, nothing claimed. -/
def magInit : MagState := ⟨0, []⟩

/-- One successful pass through worker `w`'s claim loop
(`MagCalculator::Worker`, `loadsofa.cpp` lines 394-407) on a work list of
length `n`: if the cursor is past the end the worker returns (no change);
otherwise the winning compare-and-swap advances the cursor by one and the
worker owns the old cursor value.  A failed compare-and-swap merely reloads
the cursor and retries, so only successful claims change the state. -/
def magClaim (n w : ℕ) (s : MagState) : MagState :=
  if s.current < n then ⟨s.current + 1, s.claims ++ [(w, s.current)]⟩ else s

/-- Run an interleaving of claim attempts: `sched` lists, in global time
order, which worker wins each attempt. -/
def magRun (n : ℕ) (sched : List ℕ) : MagState :=
  sched.foldl (fun s w => magClaim n w s) magInit

/-- The per-item outputs produced by a run: item `idx` is processed as
`CalcHrirMagnitude(mIrPoints, htemp, mIrs[idx])`, a pure function `f` of the
item index writing to regions disjoint between items. -/
def magOutputs {α : Type} (f : ℕ → α) (s : MagState) : List (ℕ × α) :=
  s.claims.map fun c => (c.2, f c.2)

/-- One metadata attribute (name/value pair) of a `MYSOFA_ARRAY`. -/
structure MySofaAttr where
  name : String
  value : String
deriving DecidableEq

/-- The attribute scan of `GetSampleRate` (`loadsofa.cpp` lines 105-130):
collect `DIMENSION_LIST` and `Units`, failing on a duplicate of either, and
emitting a diagnostic (without failing) on any other attribute.  Returns the
diagnostics and, unless a duplicate aborted the scan, the two values. -/
def scanSrateAttrs : List MySofaAttr → Option String → Option String → List String →
    List String × Option (Option String × Option String)
  | [], d, u, msgs => (msgs, some (d, u))
  | a :: rest, d, u, msgs =>
    if a.name = "DIMENSION_LIST" then
      match d with
      | some _ => (msgs ++ ["Duplicate SampleRate.DIMENSION_LIST"], none)
      | none => scanSrateAttrs rest (some a.value) u msgs
    else if a.name = "Units" then
      match u with
      | some _ => (msgs ++ ["Duplicate SampleRate.Units"], none)
      | none => scanSrateAttrs rest d (some a.value) msgs
    else
      scanSrateAttrs rest d u (msgs ++ ["Unexpected sample rate attribute: " ++ a.name])

/-- `GetSampleRate` (`loadsofa.cpp` lines 100-160) on the sample-rate array's
attributes and first value; a result of `0` is the failure the caller checks
for.  `minRate`/`maxRate` stand for the constants `MIN_RATE`/`MAX_RATE` of
`makemhr.h` (not part of this component). -/
def getSampleRate (minRate maxRate : ℚ) (attrs : List MySofaAttr) (value0 : ℚ) :
    List String × ℚ :=
  match scanSrateAttrs attrs none none [] with
  | (msgs, none) => (msgs, 0)
  | (msgs, some (d, u)) =>
    match d with
    | none => (msgs ++ ["Missing sample rate dimensions"], 0)
    | some dim =>
      if dim ≠ "I" then (msgs ++ ["Unsupported sample rate dimensions: " ++ dim], 0)
      else
        match u with
        | none => (msgs ++ ["Missing sample rate unit type"], 0)
        | some units =>
          if units ≠ "hertz" then
            (msgs ++ ["Unsupported sample rate unit type: " ++ units], 0)
          else if value0 < minRate ∨ maxRate < value0 then
            (msgs ++ ["Sample rate out of range"], 0)
          else (msgs, value0)

/-- The attribute scan shared by `PrepareDelay` and `CheckIrData`
(`loadsofa.cpp` lines 171-187 and 206-222): collect `DIMENSION_LIST`,
failing on a duplicate, warning on anything else. -/
def scanDimAttrs (dupMsg otherMsg : String) :
    List MySofaAttr → Option String → List String → List String × Option (Option String)
  | [], d, msgs => (msgs, some d)
  | a :: rest, d, msgs =>
    if a.name = "DIMENSION_LIST" then
      match d with
      | some _ => (msgs ++ [dupMsg], none)
      | none => scanDimAttrs dupMsg otherMsg rest (some a.value) msgs
    else
      scanDimAttrs dupMsg otherMsg rest d (msgs ++ [otherMsg ++ a.name])

/-- `PrepareDelay` (`loadsofa.cpp` lines 167-200): `none` is the fatal
outcome; a missing dimension list means no delays (`DelayType.None`), and
only `I,R` and `M,R` are accepted. -/
def prepareDelay (attrs : List MySofaAttr) : List String × Option DelayType :=
  match scanDimAttrs "Duplicate Delay.DIMENSION_LIST" "Unexpected delay attribute: "
      attrs none [] with
  | (msgs, none) => (msgs, none)
  | (msgs, some none) => (msgs ++ ["Missing delay dimensions"], some .None)
  | (msgs, some (some dim)) =>
    if dim = "I,R" then (msgs, some .I_R)
    else if dim = "M,R" then (msgs, some .M_R)
    else (msgs ++ ["Unsupported delay dimensions: " ++ dim], none)

/-- `CheckIrData` (`loadsofa.cpp` lines 202-234): the impulse-response array
must declare exactly the `M,R,N` dimensionality. -/
def checkIrData (attrs : List MySofaAttr) : List String × Bool :=
  match scanDimAttrs "Duplicate IR.DIMENSION_LIST" "Unexpected IR attribute: "
      attrs none [] with
  | (msgs, none) => (msgs, false)
  | (msgs, some none) => (msgs ++ ["Missing IR dimensions"], false)
  | (msgs, some (some dim)) =>
    if dim ≠ "M,R,N" then (msgs ++ ["Unsupported IR dimensions: " ++ dim], false)
    else (msgs, true)

/-- The metadata gate of `LoadSofaFile` (`loadsofa.cpp` lines 475-484): the
load continues past the metadata checks exactly when the sample rate resolves
to a nonzero value, the delay dimensionality is supported, and the IR
dimensionality checks out. -/
def sofaMetadataOk (minRate maxRate : ℚ) (srateAttrs delayAttrs irAttrs : List MySofaAttr)
    (srateValue : ℚ) : Bool :=
  decide (croundUint (getSampleRate minRate maxRate srateAttrs srateValue).2 ≠ 0)
    && (prepareDelay delayAttrs).2.isSome
    && (checkIrData irAttrs).2

/-! Helper lemmas shared by the claim theorems. -/

theorem natSubOne_pos {n : ℕ} (h : 2 ≤ n) : (0 : ℚ) < ((n - 1 : ℕ) : ℚ) := by
  have : 1 ≤ n - 1 := by omega
  exact_mod_cast Nat.lt_of_lt_of_le Nat.zero_lt_one this

theorem croundUint_cast {q : ℚ} (h : 0 ≤ q) : ((croundUint q : ℕ) : ℤ) = round q := by
  rw [croundUint, cround, if_pos h, Int.toNat_of_nonneg]
  rw [round_eq]
  refine Int.le_floor.mpr ?_
  push_cast
  linarith

theorem residual_ev (evCount : ℕ) (e : ℚ) (h : 2 ≤ evCount) (i : ℕ) :
    ((90 + e) / (180 / ((evCount - 1 : ℕ) : ℚ)) - (i : ℚ)) * (180 / ((evCount - 1 : ℕ) : ℚ))
      = e - ringAngle evCount i := by
  have h1 : (1 : ℕ) ≤ evCount := by omega
  have hcast : ((evCount - 1 : ℕ) : ℚ) = (evCount : ℚ) - 1 := by push_cast [h1]; ring
  have hc : (0 : ℚ) < (evCount : ℚ) - 1 := by rw [← hcast]; exact natSubOne_pos h
  have hne : (evCount : ℚ) - 1 ≠ 0 := ne_of_gt hc
  rw [ringAngle, hcast]
  field_simp
  ring

theorem residual_az (azCount : ℕ) (a : ℚ) (h : 0 < azCount) (i : ℕ) :
    (a / (360 / (azCount : ℚ)) - (i : ℚ)) * (360 / (azCount : ℚ))
      = a - (i : ℚ) * (360 / (azCount : ℚ)) := by
  have hc : (0 : ℚ) < (azCount : ℚ) := by exact_mod_cast h
  field_simp
  ring

theorem ev_bound {evCount : ℕ} (hev : 2 ≤ evCount) {e : ℚ} (hel : -90 ≤ e) (heu : e ≤ 90) :
    croundUint ((90 + e) / (180 / ((evCount - 1 : ℕ) : ℚ))) < evCount := by
  have hc := natSubOne_pos hev
  have hs0 : (0 : ℚ) < 180 / ((evCount - 1 : ℕ) : ℚ) := by positivity
  have hef0 : 0 ≤ (90 + e) / (180 / ((evCount - 1 : ℕ) : ℚ)) := by
    apply div_nonneg (by linarith) (le_of_lt hs0)
  have h1 : (1 : ℕ) ≤ evCount := by omega
  have hcast1 : ((evCount - 1 : ℕ) : ℚ) = (evCount : ℚ) - 1 := by push_cast [h1]; ring
  have hne : (evCount : ℚ) - 1 ≠ 0 := by rw [← hcast1]; exact ne_of_gt hc
  have hefc : (90 + e) / (180 / ((evCount - 1 : ℕ) : ℚ)) ≤ ((evCount - 1 : ℕ) : ℚ) := by
    rw [div_le_iff₀ hs0]
    have hmd : ((evCount - 1 : ℕ) : ℚ) * (180 / ((evCount - 1 : ℕ) : ℚ)) = 180 := by
      rw [hcast1]
      field_simp
    rw [hmd]
    linarith
  have hrle : round ((90 + e) / (180 / ((evCount - 1 : ℕ) : ℚ))) ≤ ((evCount - 1 : ℕ) : ℤ) := by
    have := round_natCast (α := ℚ) (evCount - 1)
    calc round ((90 + e) / (180 / ((evCount - 1 : ℕ) : ℚ)))
        ≤ round (((evCount - 1 : ℕ) : ℚ)) := by
          rw [round_eq, round_eq]
          exact Int.floor_le_floor (by linarith)
      _ = ((evCount - 1 : ℕ) : ℤ) := this
  have hle : croundUint ((90 + e) / (180 / ((evCount - 1 : ℕ) : ℚ))) ≤ evCount - 1 := by
    have hcast := croundUint_cast hef0
    omega
  omega

/-- C1: a measurement matched to a field snaps its elevation to the ring
obtained by rounding `(90 + elevation) / (180 / (ringCount - 1))`, which is a
nearest ring; it is skipped — with no error — exactly when the residual
angular error `|(ef - ei) * evscale|` reaches the `0.1` tolerance, and a
skipped measurement leaves the load-loop state unchanged with the loop
continuing; the azimuth slot comes analogously from
`azimuth / (360 / slotCount)` with the rounded index wrapped modulo the slot
count before the residual-tolerance check. -/
theorem ring_slot_snapping (evCount azCount : ℕ) (e a : ℚ)
    (hev : 2 ≤ evCount) (hel : -90 ≤ e) (heu : e ≤ 90)
    (haz : 0 < azCount) (ha : 0 ≤ a) :
    (∀ ei, matchEv evCount e = some ei → ei < evCount ∧
        |e - ringAngle evCount ei| < 1/10 ∧
        ∀ j, j < evCount → |e - ringAngle evCount ei| ≤ |e - ringAngle evCount j|) ∧
    (matchEv evCount e = none ↔
        1/10 ≤ |e - ringAngle evCount
          (croundUint ((90 + e) / (180 / ((evCount - 1 : ℕ) : ℚ))))|) ∧
    (∀ ai, matchAz azCount a = some ai →
        ai = croundUint (a / (360 / (azCount : ℚ))) % azCount ∧ ai < azCount ∧
        |a - (croundUint (a / (360 / (azCount : ℚ))) : ℚ) * (360 / (azCount : ℚ))| < 1/10) ∧
    (matchAz azCount a = none ↔
        1/10 ≤ |a - (croundUint (a / (360 / (azCount : ℚ))) : ℚ) * (360 / (azCount : ℚ))|) ∧
    (∀ (sofa : SofaData) (dt : DelayType) (oR : ℕ) (rs : List ℚ → List ℚ)
        (st : HrirDataT) (si : ℕ),
        snapMeas st (sofa.aer si).1 (sofa.aer si).2.1 (sofa.aer si).2.2 = none →
        loadStep sofa dt oR rs st si = (st, true)) := by
  have hc := natSubOne_pos hev
  have hs0 : (0 : ℚ) < 180 / ((evCount - 1 : ℕ) : ℚ) := by positivity
  have hef0 : 0 ≤ (90 + e) / (180 / ((evCount - 1 : ℕ) : ℚ)) := by
    apply div_nonneg (by linarith) (le_of_lt hs0)
  have hcastEv := croundUint_cast hef0
  have hcq : ((croundUint ((90 + e) / (180 / ((evCount - 1 : ℕ) : ℚ))) : ℕ) : ℚ)
      = ((round ((90 + e) / (180 / ((evCount - 1 : ℕ) : ℚ))) : ℤ) : ℚ) := by
    exact_mod_cast congrArg (fun z : ℤ => (z : ℚ)) hcastEv
  have hac : (0 : ℚ) < (azCount : ℚ) := by exact_mod_cast haz
  have ht0 : (0 : ℚ) < 360 / (azCount : ℚ) := by positivity
  have haf0 : 0 ≤ a / (360 / (azCount : ℚ)) := by
    apply div_nonneg ha (le_of_lt ht0)
  have hcastAz := croundUint_cast haf0
  have haq : ((croundUint (a / (360 / (azCount : ℚ))) : ℕ) : ℚ)
      = ((round (a / (360 / (azCount : ℚ))) : ℤ) : ℚ) := by
    exact_mod_cast congrArg (fun z : ℤ => (z : ℚ)) hcastAz
  refine ⟨?_, ?_, ?_, ?_, ?_⟩
  · intro ei hei
    simp only [matchEv] at hei
    split at hei
    · exact absurd hei (by simp)
    · rename_i hlt
      have heq : ei = croundUint ((90 + e) / (180 / ((evCount - 1 : ℕ) : ℚ))) :=
        (Option.some.inj hei).symm
      subst heq
      refine ⟨ev_bound hev hel heu, ?_, ?_⟩
      · rw [← residual_ev evCount e hev]
        exact lt_of_not_le hlt
      · intro j hj
        rw [← residual_ev evCount e hev, ← residual_ev evCount e hev]
        rw [abs_mul, abs_mul, abs_of_pos hs0]
        apply mul_le_mul_of_nonneg_right _ (le_of_lt hs0)
        rw [hcq]
        have := round_le ((90 + e) / (180 / ((evCount - 1 : ℕ) : ℚ))) (j : ℤ)
        simpa using this
  · rw [← residual_ev evCount e hev]
    simp only [matchEv]
    split
    · rename_i hcond
      exact iff_of_true rfl hcond
    · rename_i hcond
      exact iff_of_false (by simp) hcond
  · intro ai hai
    simp only [matchAz] at hai
    split at hai
    · exact absurd hai (by simp)
    · rename_i hlt
      have heq : ai = croundUint (a / (360 / (azCount : ℚ))) % azCount :=
        (Option.some.inj hai).symm
      refine ⟨heq, heq ▸ Nat.mod_lt _ haz, ?_⟩
      rw [← residual_az azCount a haz]
      exact lt_of_not_le hlt
  · rw [← residual_az azCount a haz]
    simp only [matchAz]
    split
    · rename_i hcond
      exact iff_of_true rfl hcond
    · rename_i hcond
      exact iff_of_false (by simp) hcond
  · intro sofa dt oR rs st si hsnap
    simp only [loadStep, hsnap]

theorem ring_slot_snapping_witness :
    (∀ ei, matchEv 19 (30 : ℚ) = some ei → ei < 19 ∧
        |(30 : ℚ) - ringAngle 19 ei| < 1/10 ∧
        ∀ j, j < 19 → |(30 : ℚ) - ringAngle 19 ei| ≤ |(30 : ℚ) - ringAngle 19 j|) ∧
    (matchEv 19 (30 : ℚ) = none ↔
        1/10 ≤ |(30 : ℚ) - ringAngle 19
          (croundUint ((90 + 30) / (180 / ((19 - 1 : ℕ) : ℚ))))|) ∧
    (∀ ai, matchAz 4 (90 : ℚ) = some ai →
        ai = croundUint ((90 : ℚ) / (360 / (4 : ℚ))) % 4 ∧ ai < 4 ∧
        |(90 : ℚ) - (croundUint ((90 : ℚ) / (360 / (4 : ℚ))) : ℚ) * (360 / (4 : ℚ))| < 1/10) ∧
    (matchAz 4 (90 : ℚ) = none ↔
        1/10 ≤ |(90 : ℚ) - (croundUint ((90 : ℚ) / (360 / (4 : ℚ))) : ℚ) * (360 / (4 : ℚ))|) ∧
    (∀ (sofa : SofaData) (dt : DelayType) (oR : ℕ) (rs : List ℚ → List ℚ)
        (st : HrirDataT) (si : ℕ),
        snapMeas st (sofa.aer si).1 (sofa.aer si).2.1 (sofa.aer si).2.2 = none →
        loadStep sofa dt oR rs st si = (st, true)) :=
  ring_slot_snapping 19 4 30 90 (by norm_num) (by norm_num) (by norm_num)
    (by norm_num) (by norm_num)

/-- C4: a measurement whose absolute elevation is at least `89.999` degrees
has its azimuth forced to `0` before matching, so it snaps to azimuth slot
`0` of the matched ring, whatever its source azimuth was. -/
theorem pole_forces_azimuth_zero (a a' e : ℚ) (n : ℕ)
    (he : 89999/1000 ≤ |e|) :
    adjustAz a e = 0 ∧ matchAz n (adjustAz a e) = some 0 ∧
      matchAz n (adjustAz a e) = matchAz n (adjustAz a' e) := by
  have h0 : adjustAz a e = 0 := by simp [adjustAz, he]
  have h0' : adjustAz a' e = 0 := by simp [adjustAz, he]
  refine ⟨h0, ?_, by rw [h0, h0']⟩
  rw [h0]
  have hz : croundUint (0 : ℚ) = 0 := by
    simp [croundUint, cround]
  norm_num [matchAz, hz]

theorem pole_forces_azimuth_zero_witness :
    adjustAz 123 90 = 0 ∧ matchAz 4 (adjustAz 123 90) = some 0 ∧
      matchAz 4 (adjustAz 123 90) = matchAz 4 (adjustAz 77 90) :=
  pole_forces_azimuth_zero 123 77 90 4 (by norm_num)

/-- C10: below the pole threshold the azimuth used for snapping is
`fmod(360 - a, 360)`, which for a source azimuth strictly between `0` and
`360` equals `360 - a`: the azimuth direction is reversed before snapping.
With four slots, azimuth `90` goes to slot `3` (the slot at `270` degrees),
not to slot `1` (the slot at `90` degrees). -/
theorem azimuth_direction_reversed (a e : ℚ) (n : ℕ)
    (ha0 : 0 < a) (ha1 : a < 360) (he : |e| < 89999/1000) :
    adjustAz a e = 360 - a ∧
      (a ≠ 180 → adjustAz a e ≠ a) ∧
      matchAz n (adjustAz a e) = matchAz n (360 - a) ∧
      matchAz 4 (adjustAz 90 0) = some 3 ∧ matchAz 4 (90 : ℚ) = some 1 := by
  have hne : ¬ (89999/1000 ≤ |e|) := not_le.mpr he
  have hq0 : (0 : ℚ) ≤ (360 - a) / 360 := div_nonneg (by linarith) (by norm_num)
  have hq1 : (360 - a) / 360 < 1 := by
    rw [div_lt_one (by norm_num : (0:ℚ) < 360)]
    linarith
  have hfl : ⌊(360 - a) / 360⌋ = 0 := by
    rw [Int.floor_eq_zero_iff]
    exact ⟨hq0, hq1⟩
  have hmod : cfmod (360 - a) 360 = 360 - a := by
    rw [cfmod, ratTrunc, if_pos hq0, hfl]
    push_cast
    ring
  have hadj : adjustAz a e = 360 - a := by rw [adjustAz, if_neg hne, hmod]
  refine ⟨hadj, ?_, by rw [hadj], ?_, ?_⟩
  · intro h180
    rw [hadj]
    intro hcontra
    apply h180
    linarith
  · have hval : adjustAz 90 0 = 270 := by
      norm_num [adjustAz, cfmod, ratTrunc]
    rw [hval]
    have h3 : croundUint (3 : ℚ) = 3 := by
      rw [croundUint, cround, if_pos (by norm_num)]
      have hr : round (3 : ℚ) = 3 := by norm_num [round_eq]
      rw [hr]
      decide
    norm_num [matchAz, h3]
  · have h1 : croundUint (1 : ℚ) = 1 := by
      rw [croundUint, cround, if_pos (by norm_num)]
      have hr : round (1 : ℚ) = 1 := round_one
      rw [hr]
      decide
    norm_num [matchAz, h1]

theorem azimuth_direction_reversed_witness :
    adjustAz 45 10 = 360 - 45 ∧
      ((45 : ℚ) ≠ 180 → adjustAz 45 10 ≠ 45) ∧
      matchAz 8 (adjustAz 45 10) = matchAz 8 (360 - 45) ∧
      matchAz 4 (adjustAz 90 0) = some 3 ∧ matchAz 4 (90 : ℚ) = some 1 :=
  azimuth_direction_reversed 45 10 8 (by norm_num) (by norm_num) (by norm_num)

theorem croundUint_zero : croundUint (0 : ℚ) = 0 := by
  rw [croundUint, cround, if_pos (by norm_num), round_zero]
  decide

theorem croundUint_one : croundUint (1 : ℚ) = 1 := by
  rw [croundUint, cround, if_pos (by norm_num), round_one]
  decide

/-! A small concrete grid used to exercise the load loop: one field at
distance `1` with three one-slot rings, mono, `mIrSize = 4`, and a source
with two identical measurements at azimuth `0`, elevation `0`, radius `1`
(two samples per impulse, delay value `7`). -/

/-- Example slot, already populated. -/
def exAzSet : HrirAzT := ⟨0, true, fun _ => 0⟩

/-- Example slot, not yet populated. -/
def exAzUnset : HrirAzT := ⟨0, false, fun _ => 0⟩

/-- Example one-slot ring, populated. -/
def exEvSet : HrirEvT := ⟨[exAzSet]⟩

/-- Example one-slot ring, unpopulated. -/
def exEvUnset : HrirEvT := ⟨[exAzUnset]⟩

/-- Example field with three populated rings. -/
def exFdSet : HrirFdT := ⟨1, 0, [exEvSet, exEvSet, exEvSet]⟩

/-- Example field with three unpopulated rings. -/
def exFdUnset : HrirFdT := ⟨1, 0, [exEvUnset, exEvUnset, exEvUnset]⟩

/-- Example grid whose only slots are populated. -/
def exStSet : HrirDataT := ⟨[exFdSet], 1, 4, 2, 48000, 1, fun _ => 0⟩

/-- Example grid whose slots are all unpopulated. -/
def exStUnset : HrirDataT := ⟨[exFdUnset], 1, 4, 2, 48000, 1, fun _ => 0⟩

/-- Example source data: two measurements at `(a, e, r) = (0, 0, 1)`. -/
def exSofa : SofaData := ⟨2, 1, 2, fun _ => (0, 0, 1), fun p => (p : ℚ) + 1, fun _ => 7⟩

theorem exSnapSet : snapMeas exStSet 0 0 1 = some (0, 1, 0) := by
  have h1 : findField exStSet.mFds 1 = some 0 := by
    norm_num [findField, exStSet, exFdSet, List.findIdx?]
  have hfld : exStSet.mFds.getD 0 default = exFdSet := rfl
  have hlen : exFdSet.mEvs.length = 3 := rfl
  have h2 : matchEv 3 0 = some 1 := by norm_num [matchEv, croundUint_one]
  have hev : exFdSet.mEvs.getD 1 default = exEvSet := rfl
  have hlen2 : exEvSet.mAzs.length = 1 := rfl
  have ha : adjustAz 0 0 = 0 := by norm_num [adjustAz, cfmod, ratTrunc]
  have h3 : matchAz 1 0 = some 0 := by norm_num [matchAz, croundUint_zero]
  rw [snapMeas, h1]
  simp only [hfld, hlen, h2, hev, hlen2, ha, h3]

theorem exSnapUnset : snapMeas exStUnset 0 0 1 = some (0, 1, 0) := by
  have h1 : findField exStUnset.mFds 1 = some 0 := by
    norm_num [findField, exStUnset, exFdUnset, List.findIdx?]
  have hfld : exStUnset.mFds.getD 0 default = exFdUnset := rfl
  have hlen : exFdUnset.mEvs.length = 3 := rfl
  have h2 : matchEv 3 0 = some 1 := by norm_num [matchEv, croundUint_one]
  have hev : exFdUnset.mEvs.getD 1 default = exEvUnset := rfl
  have hlen2 : exEvUnset.mAzs.length = 1 := rfl
  have ha : adjustAz 0 0 = 0 := by norm_num [adjustAz, cfmod, ratTrunc]
  have h3 : matchAz 1 0 = some 0 := by norm_num [matchAz, croundUint_zero]
  rw [snapMeas, h1]
  simp only [hfld, hlen, h2, hev, hlen2, ha, h3]

/-- C2: when a measurement snaps to a slot that is already populated, the
load fails at that step — the step returns `false`, the state (in particular
the already-stored first measurement's samples) is unchanged, and the
measurement loop stops without processing the remaining measurements. -/
theorem duplicate_measurement_aborts (sofa : SofaData) (dt : DelayType) (oR : ℕ)
    (rs : List ℚ → List ℚ) (st : HrirDataT) (si fi ei ai : ℕ) (rest : List ℕ)
    (hsnap : snapMeas st (sofa.aer si).1 (sofa.aer si).2.1 (sofa.aer si).2.2
      = some (fi, ei, ai))
    (hdup : (getAz st fi ei ai).mIrsSet = true) :
    loadStep sofa dt oR rs st si = (st, false) ∧
      loadLoop sofa dt oR rs st (si :: rest) = (st, false) := by
  have h1 : loadStep sofa dt oR rs st si = (st, false) := by
    simp only [loadStep, hsnap, hdup, if_true]
  exact ⟨h1, by simp only [loadLoop, h1, Bool.false_eq_true, if_false]⟩

theorem duplicate_measurement_aborts_witness :
    loadStep exSofa .M_R 0 id exStSet 0 = (exStSet, false) ∧
      loadLoop exSofa .M_R 0 id exStSet [0, 1] = (exStSet, false) :=
  duplicate_measurement_aborts exSofa .M_R 0 id exStSet 0 0 1 0 [1]
    exSnapSet (by simp [getAz, exStSet, exFdSet, exEvSet, exAzSet])

theorem writeSeg_outside (buf : ℕ → ℚ) (off : ℕ) (src : List ℚ) (p : ℕ)
    (h : ¬(off ≤ p ∧ p - off < src.length)) : writeSeg buf off src p = buf p :=
  if_neg h

theorem writeSeg_inside (buf : ℕ → ℚ) (off : ℕ) (src : List ℚ) (j : ℕ)
    (h : j < src.length) : writeSeg buf off src (off + j) = src.getD j 0 := by
  rw [writeSeg]
  rw [if_pos ⟨Nat.le_add_right off j, by simpa [Nat.add_sub_cancel_left] using h⟩]
  simp [Nat.add_sub_cancel_left]

theorem foldl_writeSeg_outside (c : ℕ) (off : ℕ → ℕ) (data : ℕ → List ℚ)
    (buf : ℕ → ℚ) (p : ℕ)
    (h : ∀ ti, ti < c → ¬(off ti ≤ p ∧ p - off ti < (data ti).length)) :
    ((List.range c).foldl (fun s ti => writeSeg s (off ti) (data ti)) buf) p = buf p := by
  induction c generalizing buf with
  | zero => simp
  | succ c ih =>
    rw [List.range_succ, List.foldl_append]
    simp only [List.foldl_cons, List.foldl_nil]
    rw [writeSeg_outside _ _ _ _ (h c (Nat.lt_succ_self c))]
    exact ih _ (fun ti hti => h ti (Nat.lt_succ_of_lt hti))

theorem foldl_writeSeg_inside (c : ℕ) (off : ℕ → ℕ) (data : ℕ → List ℚ)
    (buf : ℕ → ℚ) (ti j : ℕ) (hti : ti < c) (hj : j < (data ti).length)
    (hdisj : ∀ ti', ti < ti' → ti' < c →
      ¬(off ti' ≤ off ti + j ∧ off ti + j - off ti' < (data ti').length)) :
    ((List.range c).foldl (fun s ti => writeSeg s (off ti) (data ti)) buf) (off ti + j)
      = (data ti).getD j 0 := by
  induction c generalizing buf with
  | zero => omega
  | succ c ih =>
    rw [List.range_succ, List.foldl_append]
    simp only [List.foldl_cons, List.foldl_nil]
    by_cases hc : ti = c
    · subst hc
      rw [writeSeg_inside _ _ _ _ hj]
    · have hti' : ti < c := by omega
      rw [writeSeg_outside _ _ _ _
        (hdisj c (by omega) (Nat.lt_succ_self c))]
      exact ih _ hti' (fun ti' h1 h2 => hdisj ti' h1 (Nat.lt_succ_of_lt h2))

theorem measIr_length (sofa : SofaData) (si ti : ℕ) :
    (measIr sofa si ti).length = sofa.N := by
  simp [measIr]

theorem measIr_getD (sofa : SofaData) (si ti j : ℕ) (hj : j < sofa.N) :
    (measIr sofa si ti).getD j 0 = sofa.irValues ((si * sofa.R + ti) * sofa.N + j) := by
  rw [measIr, List.getD_eq_getElem _ _ (by simpa using hj)]
  simp

theorem setAz_storage (st : HrirDataT) (fi ei ai : ℕ) (azd : HrirAzT) :
    (setAz st fi ei ai azd).storage = st.storage := rfl

theorem slot_segments_disjoint (st : HrirDataT) (idx ti ti' j sofa_n : ℕ)
    (hidx : idx < st.mIrCount) (hj : j < sofa_n) (hN : sofa_n ≤ st.mIrSize)
    (hlt : ti < ti') :
    slotOffset st idx ti + j < slotOffset st idx ti' := by
  have h1 : st.mIrCount * ti + idx + 1 ≤ st.mIrCount * ti' + idx := by
    have h2 : st.mIrCount * (ti + 1) ≤ st.mIrCount * ti' :=
      Nat.mul_le_mul_left _ (Nat.succ_le_of_lt hlt)
    have h3 : st.mIrCount * ti + st.mIrCount = st.mIrCount * (ti + 1) := by ring
    omega
  have h4 : (st.mIrCount * ti + idx + 1) * st.mIrSize ≤ (st.mIrCount * ti' + idx) * st.mIrSize :=
    Nat.mul_le_mul_right _ h1
  have h5 : (st.mIrCount * ti + idx + 1) * st.mIrSize
      = (st.mIrCount * ti + idx) * st.mIrSize + st.mIrSize := by ring
  simp only [slotOffset]
  omega

theorem assignMeas_storage_noRes (sofa : SofaData) (dt : DelayType) (oR : ℕ)
    (rs : List ℚ → List ℚ) (st : HrirDataT) (si fi ei ai : ℕ)
    (hres : useResampler oR st.mIrRate = false) :
    (assignMeas sofa dt oR rs st si fi ei ai).storage
      = (List.range st.channels).foldl (fun s ti =>
          writeSeg s (slotOffset st (getAz st fi ei ai).mIndex ti) (measIr sofa si ti))
          st.storage := by
  simp only [assignMeas, hres, Bool.false_eq_true, if_false, setAz]

/-- C5: when the requested output rate is zero or equals the source rate, no
resampler is used — the load step's result does not depend on the resampler
function at all — the step succeeds, the assigned slot's storage region is a
bit-for-bit copy of the source impulse samples of that measurement and
channel, and every storage position outside the written regions is unchanged
(hence still zero in the freshly zeroed buffer). -/
theorem no_resample_copy (sofa : SofaData) (dt : DelayType) (oR : ℕ)
    (rs rs' : List ℚ → List ℚ) (st : HrirDataT) (si fi ei ai : ℕ)
    (hsnap : snapMeas st (sofa.aer si).1 (sofa.aer si).2.1 (sofa.aer si).2.2
      = some (fi, ei, ai))
    (hnew : (getAz st fi ei ai).mIrsSet = false)
    (hrate : oR = 0 ∨ oR = st.mIrRate)
    (hN : sofa.N ≤ st.mIrSize)
    (hidx : (getAz st fi ei ai).mIndex < st.mIrCount) :
    loadStep sofa dt oR rs st si = loadStep sofa dt oR rs' st si ∧
    (loadStep sofa dt oR rs st si).2 = true ∧
    (∀ ti j, ti < st.channels → j < sofa.N →
      (loadStep sofa dt oR rs st si).1.storage
          (slotOffset st (getAz st fi ei ai).mIndex ti + j)
        = sofa.irValues ((si * sofa.R + ti) * sofa.N + j)) ∧
    (∀ p, (∀ ti, ti < st.channels →
        ¬(slotOffset st (getAz st fi ei ai).mIndex ti ≤ p ∧
            p - slotOffset st (getAz st fi ei ai).mIndex ti < sofa.N)) →
      (loadStep sofa dt oR rs st si).1.storage p = st.storage p) := by
  have hres : useResampler oR st.mIrRate = false := by
    rcases hrate with h | h <;> simp [useResampler, h]
  have hstep : loadStep sofa dt oR rs st si
      = (assignMeas sofa dt oR rs st si fi ei ai, true) := by
    simp only [loadStep, hsnap, hnew, Bool.false_eq_true, if_false]
  have hstep' : loadStep sofa dt oR rs' st si
      = (assignMeas sofa dt oR rs' st si fi ei ai, true) := by
    simp only [loadStep, hsnap, hnew, Bool.false_eq_true, if_false]
  have hireq : assignMeas sofa dt oR rs st si fi ei ai
      = assignMeas sofa dt oR rs' st si fi ei ai := by
    simp only [assignMeas, hres, Bool.false_eq_true, if_false]
  refine ⟨by rw [hstep, hstep', hireq], by rw [hstep], ?_, ?_⟩
  · intro ti j hti hj
    rw [hstep]
    simp only
    rw [assignMeas_storage_noRes sofa dt oR rs st si fi ei ai hres]
    have hlen : j < (measIr sofa si ti).length := by rw [measIr_length]; exact hj
    rw [foldl_writeSeg_inside st.channels _ _ st.storage ti j hti hlen ?_]
    · exact measIr_getD sofa si ti j hj
    · intro ti' h1 h2
      have := slot_segments_disjoint st (getAz st fi ei ai).mIndex ti ti' j sofa.N
        hidx hj hN h1
      intro hcontra
      omega
  · intro p hp
    rw [hstep]
    simp only
    rw [assignMeas_storage_noRes sofa dt oR rs st si fi ei ai hres]
    apply foldl_writeSeg_outside
    intro ti hti
    rw [measIr_length]
    exact hp ti hti

theorem getD_set_self {α : Type} [Inhabited α] (l : List α) (i : ℕ) (a : α)
    (h : i < l.length) : (l.set i a).getD i default = a := by
  rw [List.getD_eq_getElem _ _ (by simpa using h)]
  simp [List.getElem_set_self]

theorem getD_set_ne {α : Type} [Inhabited α] (l : List α) (i j : ℕ) (a : α)
    (h : j ≠ i) : (l.set i a).getD j default = l.getD j default := by
  simp [List.getD_eq_getElem?_getD, List.getElem?_set_ne (Ne.symm h)]

theorem getAz_setAz_self (st : HrirDataT) (fi ei ai : ℕ) (azd : HrirAzT)
    (hfi : fi < st.mFds.length)
    (hei : ei < (st.mFds.getD fi default).mEvs.length)
    (hai : ai < ((st.mFds.getD fi default).mEvs.getD ei default).mAzs.length) :
    getAz (setAz st fi ei ai azd) fi ei ai = azd := by
  simp only [getAz, setAz]
  rw [getD_set_self _ _ _ hfi]
  simp only
  rw [getD_set_self _ _ _ hei]
  simp only
  rw [getD_set_self _ _ _ hai]

theorem getAz_setAz_ne (st : HrirDataT) (fi ei ai : ℕ) (azd : HrirAzT) (fi' ei' ai' : ℕ)
    (h : fi' ≠ fi ∨ ei' ≠ ei ∨ ai' ≠ ai) :
    getAz (setAz st fi ei ai azd) fi' ei' ai' = getAz st fi' ei' ai' := by
  simp only [getAz, setAz]
  by_cases hfi : fi' = fi
  · subst hfi
    by_cases hlt : fi' < st.mFds.length
    · rw [getD_set_self _ _ _ hlt]
      simp only
      by_cases hei' : ei' = ei
      · subst hei'
        have hai' : ai' ≠ ai := by tauto
        by_cases hlt2 : ei' < (st.mFds.getD fi' default).mEvs.length
        · rw [getD_set_self _ _ _ hlt2]
          simp only
          rw [getD_set_ne _ _ _ _ hai']
        · rw [List.set_eq_of_length_le (Nat.le_of_not_lt hlt2)]
      · rw [getD_set_ne _ _ _ _ hei']
    · rw [List.set_eq_of_length_le (Nat.le_of_not_lt hlt)]
  · rw [getD_set_ne _ _ _ _ hfi]

theorem loadStep_mIrRate (sofa : SofaData) (dt : DelayType) (oR : ℕ)
    (rs : List ℚ → List ℚ) (st : HrirDataT) (si : ℕ) :
    (loadStep sofa dt oR rs st si).1.mIrRate = st.mIrRate := by
  simp only [loadStep]
  split
  · rfl
  · split
    · rfl
    · rfl

theorem loadLoop_mIrRate (sofa : SofaData) (dt : DelayType) (oR : ℕ)
    (rs : List ℚ → List ℚ) (sis : List ℕ) :
    ∀ st, (loadLoop sofa dt oR rs st sis).1.mIrRate = st.mIrRate := by
  induction sis with
  | nil => intro st; rfl
  | cons si rest ih =>
    intro st
    simp only [loadLoop]
    split
    · rw [ih, loadStep_mIrRate]
    · exact loadStep_mIrRate sofa dt oR rs st si

theorem assignMeas_delays (sofa : SofaData) (dt : DelayType) (oR : ℕ)
    (rs : List ℚ → List ℚ) (st : HrirDataT) (si fi ei ai ti : ℕ)
    (hfi : fi < st.mFds.length)
    (hei : ei < (st.mFds.getD fi default).mEvs.length)
    (hai : ai < ((st.mFds.getD fi default).mEvs.getD ei default).mAzs.length)
    (hti : ti < st.channels) :
    (getAz (assignMeas sofa dt oR rs st si fi ei ai) fi ei ai).mDelays ti
      = match dt with
        | .None => (getAz st fi ei ai).mDelays ti
        | .I_R => sofa.delayValues ti / (st.mIrRate : ℚ)
        | .M_R => sofa.delayValues (si * sofa.R + ti) / (st.mIrRate : ℚ) := by
  simp only [assignMeas]
  rw [getAz_setAz_self]
  · simp only [if_pos hti]
  · exact hfi
  · exact hei
  · exact hai

/-- C7: the per-channel delay recorded for an assigned measurement equals the
raw source delay value divided by the sample rate held by the grid during the
loop — the source rate, since neither a load step nor the measurement loop
ever changes `mIrRate` — and never by the output rate: the recorded delay is
identical for every requested output rate, and `loadResponses` moves the
grid's rate to the output rate only after the whole loop has finished.
A step also leaves every other slot (hence every already-recorded delay)
untouched. -/
theorem delay_divided_by_source_rate (sofa : SofaData) (dt : DelayType) (oR : ℕ)
    (rs : List ℚ → List ℚ) (st : HrirDataT) (si fi ei ai ti : ℕ)
    (hsnap : snapMeas st (sofa.aer si).1 (sofa.aer si).2.1 (sofa.aer si).2.2
      = some (fi, ei, ai))
    (hnew : (getAz st fi ei ai).mIrsSet = false)
    (hfi : fi < st.mFds.length)
    (hei : ei < (st.mFds.getD fi default).mEvs.length)
    (hai : ai < ((st.mFds.getD fi default).mEvs.getD ei default).mAzs.length)
    (hti : ti < st.channels) :
    (dt = .I_R →
      (getAz (loadStep sofa dt oR rs st si).1 fi ei ai).mDelays ti
        = sofa.delayValues ti / (st.mIrRate : ℚ)) ∧
    (dt = .M_R →
      (getAz (loadStep sofa dt oR rs st si).1 fi ei ai).mDelays ti
        = sofa.delayValues (si * sofa.R + ti) / (st.mIrRate : ℚ)) ∧
    (∀ (oR' : ℕ) (rs' : List ℚ → List ℚ),
      (getAz (loadStep sofa dt oR rs st si).1 fi ei ai).mDelays ti
        = (getAz (loadStep sofa dt oR' rs' st si).1 fi ei ai).mDelays ti) ∧
    ((loadStep sofa dt oR rs st si).1.mIrRate = st.mIrRate) ∧
    (∀ (st' : HrirDataT) (sis : List ℕ),
      (loadLoop sofa dt oR rs st' sis).1.mIrRate = st'.mIrRate) ∧
    (∀ st' : HrirDataT, (loadResponses sofa dt oR rs st').2 = true →
      (loadResponses sofa dt oR rs st').1.mIrRate
        = if useResampler oR st'.mIrRate then oR else st'.mIrRate) ∧
    (∀ fi' ei' ai', fi' ≠ fi ∨ ei' ≠ ei ∨ ai' ≠ ai →
      getAz (loadStep sofa dt oR rs st si).1 fi' ei' ai' = getAz st fi' ei' ai') := by
  have hstep : ∀ (oR' : ℕ) (rs' : List ℚ → List ℚ), loadStep sofa dt oR' rs' st si
      = (assignMeas sofa dt oR' rs' st si fi ei ai, true) := by
    intro oR' rs'
    simp only [loadStep, hsnap, hnew, Bool.false_eq_true, if_false]
  refine ⟨?_, ?_, ?_, loadStep_mIrRate sofa dt oR rs st si,
    fun st' sis => loadLoop_mIrRate sofa dt oR rs sis st', ?_, ?_⟩
  · intro hdt
    subst hdt
    rw [hstep oR rs]
    exact assignMeas_delays sofa _ oR rs st si fi ei ai ti hfi hei hai hti
  · intro hdt
    subst hdt
    rw [hstep oR rs]
    exact assignMeas_delays sofa _ oR rs st si fi ei ai ti hfi hei hai hti
  · intro oR' rs'
    rw [hstep oR rs, hstep oR' rs']
    simp only
    rw [assignMeas_delays sofa dt oR rs st si fi ei ai ti hfi hei hai hti,
      assignMeas_delays sofa dt oR' rs' st si fi ei ai ti hfi hei hai hti]
  · intro st' hok
    have hr : (loadLoop sofa dt oR rs { st' with storage := fun _ => 0 }
        (List.range sofa.M)).1.mIrRate = st'.mIrRate :=
      loadLoop_mIrRate sofa dt oR rs (List.range sofa.M) _
    simp only [loadResponses] at hok ⊢
    split at hok
    · rename_i h2
      rw [if_pos h2, hr]
      by_cases hc : useResampler oR st'.mIrRate = true
      · simp only [if_pos hc]
      · simp only [if_neg hc]
        exact hr
    · simp at hok
  · intro fi' ei' ai' hneq
    rw [hstep oR rs]
    simp only [assignMeas]
    rw [getAz_setAz_ne _ _ _ _ _ _ _ _ hneq]
    rfl

theorem no_resample_copy_witness :
    loadStep exSofa .M_R 0 id exStUnset 0 = loadStep exSofa .M_R 0 (fun _ => []) exStUnset 0 ∧
    (loadStep exSofa .M_R 0 id exStUnset 0).2 = true ∧
    (∀ ti j, ti < exStUnset.channels → j < exSofa.N →
      (loadStep exSofa .M_R 0 id exStUnset 0).1.storage
          (slotOffset exStUnset (getAz exStUnset 0 1 0).mIndex ti + j)
        = exSofa.irValues ((0 * exSofa.R + ti) * exSofa.N + j)) ∧
    (∀ p, (∀ ti, ti < exStUnset.channels →
        ¬(slotOffset exStUnset (getAz exStUnset 0 1 0).mIndex ti ≤ p ∧
            p - slotOffset exStUnset (getAz exStUnset 0 1 0).mIndex ti < exSofa.N)) →
      (loadStep exSofa .M_R 0 id exStUnset 0).1.storage p = exStUnset.storage p) :=
  no_resample_copy exSofa .M_R 0 id (fun _ => []) exStUnset 0 0 1 0
    exSnapUnset (by norm_num [getAz, exStUnset, exFdUnset, exEvUnset, exAzUnset])
    (Or.inl rfl) (by norm_num [exSofa, exStUnset])
    (by norm_num [getAz, exStUnset, exFdUnset, exEvUnset, exAzUnset])

theorem delay_divided_by_source_rate_witness :
    (DelayType.M_R = .I_R →
      (getAz (loadStep exSofa .M_R 24000 id exStUnset 0).1 0 1 0).mDelays 0
        = exSofa.delayValues 0 / (exStUnset.mIrRate : ℚ)) ∧
    (DelayType.M_R = .M_R →
      (getAz (loadStep exSofa .M_R 24000 id exStUnset 0).1 0 1 0).mDelays 0
        = exSofa.delayValues (0 * exSofa.R + 0) / (exStUnset.mIrRate : ℚ)) ∧
    (∀ (oR' : ℕ) (rs' : List ℚ → List ℚ),
      (getAz (loadStep exSofa .M_R 24000 id exStUnset 0).1 0 1 0).mDelays 0
        = (getAz (loadStep exSofa .M_R oR' rs' exStUnset 0).1 0 1 0).mDelays 0) ∧
    ((loadStep exSofa .M_R 24000 id exStUnset 0).1.mIrRate = exStUnset.mIrRate) ∧
    (∀ (st' : HrirDataT) (sis : List ℕ),
      (loadLoop exSofa .M_R 24000 id st' sis).1.mIrRate = st'.mIrRate) ∧
    (∀ st' : HrirDataT, (loadResponses exSofa .M_R 24000 id st').2 = true →
      (loadResponses exSofa .M_R 24000 id st').1.mIrRate
        = if useResampler 24000 st'.mIrRate then 24000 else st'.mIrRate) ∧
    (∀ fi' ei' ai', fi' ≠ 0 ∨ ei' ≠ 1 ∨ ai' ≠ 0 →
      getAz (loadStep exSofa .M_R 24000 id exStUnset 0).1 fi' ei' ai'
        = getAz exStUnset fi' ei' ai') :=
  delay_divided_by_source_rate exSofa .M_R 24000 id exStUnset 0 0 1 0 0
    exSnapUnset (by norm_num [getAz, exStUnset, exFdUnset, exEvUnset, exAzUnset])
    (by decide) (by decide) (by decide) (by decide)

theorem findIdxD_some {α : Type} [Inhabited α] {l : List α} {p : α → Bool} {s : ℕ}
    (h : l.findIdx? p = some s) :
    s < l.length ∧ p (l.getD s default) = true ∧
      ∀ i, i < s → p (l.getD i default) = false := by
  rw [List.findIdx?_eq_some_iff_findIdx_eq] at h
  obtain ⟨hlen, hidx⟩ := h
  rw [List.findIdx_eq hlen] at hidx
  refine ⟨hlen, ?_, ?_⟩
  · rw [List.getD_eq_getElem _ _ hlen]
    exact hidx.1
  · intro i hi
    rw [List.getD_eq_getElem _ _ (lt_trans hi hlen)]
    exact hidx.2 i hi

theorem forall_mem_drop_iff {α : Type} [Inhabited α] (l : List α) (s : ℕ) (P : α → Prop) :
    (∀ x ∈ l.drop s, P x) ↔ ∀ i, s ≤ i → i < l.length → P (l.getD i default) := by
  constructor
  · intro h i hsi hil
    have hj : i - s < (l.drop s).length := by
      rw [List.length_drop]; omega
    have hx : (l.drop s).get ⟨i - s, hj⟩ = l.get ⟨i, hil⟩ := by
      simp only [List.get_eq_getElem, List.getElem_drop]
      congr 1
      omega
    have hmem : l.get ⟨i, hil⟩ ∈ l.drop s := by
      rw [← hx]
      exact List.get_mem _ _ _
    rw [List.getD_eq_getElem _ _ hil]
    exact h _ hmem
  · intro h x hx
    obtain ⟨j, hj, rfl⟩ := List.mem_iff_getElem.mp hx
    have hlen : s + j < l.length := by
      have hj2 := hj
      rw [List.length_drop] at hj2
      omega
    rw [List.getElem_drop, ← List.getD_eq_getElem _ _ hlen]
    exact h (s + j) (Nat.le_add_right s j) hlen

theorem exists_mem_drop_iff {α : Type} [Inhabited α] (l : List α) (s : ℕ) (P : α → Prop) :
    (∃ x ∈ l.drop s, P x) ↔ ∃ i, s ≤ i ∧ i < l.length ∧ P (l.getD i default) := by
  constructor
  · intro h
    obtain ⟨x, hx, hp⟩ := h
    obtain ⟨j, hj, rfl⟩ := List.mem_iff_getElem.mp hx
    have hlen : s + j < l.length := by
      have hj2 := hj
      rw [List.length_drop] at hj2
      omega
    refine ⟨s + j, Nat.le_add_right s j, hlen, ?_⟩
    rw [List.getElem_drop] at hp
    rw [List.getD_eq_getElem _ _ hlen]
    exact hp
  · intro h
    obtain ⟨i, hsi, hil, hp⟩ := h
    have hj : i - s < (l.drop s).length := by
      rw [List.length_drop]; omega
    refine ⟨(l.drop s).get ⟨i - s, hj⟩, List.get_mem _ _ _, ?_⟩
    simp only [List.get_eq_getElem, List.getElem_drop]
    have heq : s + (i - s) = i := by omega
    rw [List.getD_eq_getElem _ _ hil] at hp
    simp only [heq]
    exact hp

theorem firstUnsetIdx_eq_none_iff (azs : List HrirAzT) :
    firstUnsetIdx azs = none ↔ ∀ az ∈ azs, az.mIrsSet = true := by
  rw [firstUnsetIdx, List.findIdx?_eq_none_iff]
  simp

theorem firstUnsetIdx_ne_none_iff (azs : List HrirAzT) :
    firstUnsetIdx azs ≠ none ↔ ∃ az ∈ azs, az.mIrsSet = false := by
  rw [Ne, firstUnsetIdx_eq_none_iff]
  push_neg
  simp [Bool.not_eq_true]

theorem ringHasData_eq_true_iff (ev : HrirEvT) :
    ringHasData ev = true ↔ ∃ az ∈ ev.mAzs, az.mIrsSet = true := by
  rw [ringHasData, List.any_eq_true]

theorem ringHasData_eq_false_iff (ev : HrirEvT) :
    ringHasData ev = false ↔ ∀ az ∈ ev.mAzs, az.mIrsSet = false := by
  rw [ringHasData, List.any_eq_false]
  simp [Bool.not_eq_true]

theorem scanMissing_eq_none_iff (evs : List HrirEvT) (e0 : ℕ) :
    scanMissing evs e0 = none ↔ ∀ ev ∈ evs, firstUnsetIdx ev.mAzs = none := by
  induction evs generalizing e0 with
  | nil => simp [scanMissing]
  | cons ev rest ih =>
    simp only [scanMissing]
    cases h : firstUnsetIdx ev.mAzs with
    | some ai => simp [h]
    | none => simp [h, ih]

theorem scanMissing_ne_none_iff (evs : List HrirEvT) (e0 : ℕ) :
    scanMissing evs e0 ≠ none ↔ ∃ ev ∈ evs, firstUnsetIdx ev.mAzs ≠ none := by
  rw [Ne, scanMissing_eq_none_iff]
  push_neg
  rfl

/-- C3: after assignment the validator (i) reports the missing-source-references
failure exactly when no slot of any ring of the field is populated; (ii) when
some ring has data, the first such ring `s` is in range, has data, all earlier
rings have none, and the validator succeeds — recording `s` as the field's
start ring — exactly when every ring at or after `s` is fully populated, so
the unpopulated rings before `s` cause no error; (iii) it reports a
per-coordinate missing-source failure exactly when some ring at or after `s`
has an unpopulated slot. -/
theorem completeness_validator (fd : HrirFdT) :
    (validateField fd = .missingField ↔
      ∀ ev ∈ fd.mEvs, ∀ az ∈ ev.mAzs, az.mIrsSet = false) ∧
    (∀ s, fd.mEvs.findIdx? ringHasData = some s →
      (s < fd.mEvs.length ∧ ringHasData (fd.mEvs.getD s default) = true ∧
        (∀ i, i < s → ringHasData (fd.mEvs.getD i default) = false)) ∧
      (validateField fd = .ok { fd with mEvStart := s } ↔
        ∀ i, s ≤ i → i < fd.mEvs.length →
          ∀ az ∈ (fd.mEvs.getD i default).mAzs, az.mIrsSet = true) ∧
      ((∃ ei ai, validateField fd = .missingRef ei ai) ↔
        ∃ i, s ≤ i ∧ i < fd.mEvs.length ∧
          ∃ az ∈ (fd.mEvs.getD i default).mAzs, az.mIrsSet = false)) := by
  constructor
  · cases hfind : fd.mEvs.findIdx? ringHasData with
    | none =>
      simp only [validateField, hfind]
      rw [List.findIdx?_eq_none_iff] at hfind
      apply iff_of_true trivial
      intro ev hev
      rw [← ringHasData_eq_false_iff]
      exact hfind ev hev
    | some s =>
      obtain ⟨hslen, hsdata, _⟩ := findIdxD_some hfind
      simp only [validateField, hfind]
      apply iff_of_false
      · cases hscan : scanMissing (fd.mEvs.drop s) s with
        | some pair =>
          obtain ⟨ei, ai⟩ := pair
          simp [hscan]
        | none => simp [hscan]
      · intro hall
        have hmem : fd.mEvs.getD s default ∈ fd.mEvs := by
          rw [List.getD_eq_getElem _ _ hslen]
          exact List.getElem_mem hslen
        obtain ⟨az, hazmem, hazset⟩ := (ringHasData_eq_true_iff _).mp hsdata
        have hfalse := hall _ hmem az hazmem
        rw [hazset] at hfalse
        exact absurd hfalse (by simp)
  · intro s hs
    obtain ⟨hslen, hsdata, hprev⟩ := findIdxD_some hs
    refine ⟨⟨hslen, hsdata, hprev⟩, ?_, ?_⟩
    · simp only [validateField, hs]
      cases hscan : scanMissing (fd.mEvs.drop s) s with
      | some pair =>
        obtain ⟨ei, ai⟩ := pair
        simp only [hscan]
        apply iff_of_false
        · simp
        · intro hall
          have hne : scanMissing (fd.mEvs.drop s) s ≠ none := by
            rw [hscan]; simp
          rw [scanMissing_ne_none_iff] at hne
          have hidx := (exists_mem_drop_iff fd.mEvs s
            (fun ev => firstUnsetIdx ev.mAzs ≠ none)).mp hne
          obtain ⟨i, hsi, hil, hine⟩ := hidx
          rw [firstUnsetIdx_ne_none_iff] at hine
          obtain ⟨az, hazmem, hazunset⟩ := hine
          have hset := hall i hsi hil az hazmem
          rw [hset] at hazunset
          exact absurd hazunset (by simp)
      | none =>
        simp only [hscan]
        apply iff_of_true trivial
        rw [scanMissing_eq_none_iff, forall_mem_drop_iff] at hscan
        intro i hsi hil az hazmem
        have hnone := hscan i hsi hil
        rw [firstUnsetIdx_eq_none_iff] at hnone
        exact hnone az hazmem
    · simp only [validateField, hs]
      cases hscan : scanMissing (fd.mEvs.drop s) s with
      | some pair =>
        obtain ⟨ei, ai⟩ := pair
        simp only [hscan]
        apply iff_of_true
        · exact ⟨ei, ai, rfl⟩
        · have hne : scanMissing (fd.mEvs.drop s) s ≠ none := by
            rw [hscan]; simp
          rw [scanMissing_ne_none_iff] at hne
          have hidx := (exists_mem_drop_iff fd.mEvs s
            (fun ev => firstUnsetIdx ev.mAzs ≠ none)).mp hne
          obtain ⟨i, hsi, hil, hine⟩ := hidx
          rw [firstUnsetIdx_ne_none_iff] at hine
          obtain ⟨az, hazmem, hazunset⟩ := hine
          exact ⟨i, hsi, hil, az, hazmem, hazunset⟩
      | none =>
        simp only [hscan]
        apply iff_of_false
        · rintro ⟨ei, ai, hcontra⟩
          exact absurd hcontra (by simp)
        · rintro ⟨i, hsi, hil, az, hazmem, hazunset⟩
          rw [scanMissing_eq_none_iff, forall_mem_drop_iff] at hscan
          have hnone := hscan i hsi hil
          rw [firstUnsetIdx_eq_none_iff] at hnone
          have hset := hnone az hazmem
          rw [hset] at hazunset
          exact absurd hazunset (by simp)

/-- Example field whose first ring is unpopulated and later rings are
populated: the validator accepts it with start ring `1`. -/
def exFdMixed : HrirFdT := ⟨1, 0, [exEvUnset, exEvSet, exEvSet]⟩

theorem completeness_validator_witness :
    (1 < exFdMixed.mEvs.length ∧ ringHasData (exFdMixed.mEvs.getD 1 default) = true ∧
      (∀ i, i < 1 → ringHasData (exFdMixed.mEvs.getD i default) = false)) ∧
    (validateField exFdMixed = .ok { exFdMixed with mEvStart := 1 } ↔
      ∀ i, 1 ≤ i → i < exFdMixed.mEvs.length →
        ∀ az ∈ (exFdMixed.mEvs.getD i default).mAzs, az.mIrsSet = true) ∧
    ((∃ ei ai, validateField exFdMixed = .missingRef ei ai) ↔
      ∃ i, 1 ≤ i ∧ i < exFdMixed.mEvs.length ∧
        ∃ az ∈ (exFdMixed.mEvs.getD i default).mAzs, az.mIrsSet = false) :=
  (completeness_validator exFdMixed).2 1 (by decide)

theorem magClaim_invariant (n w : ℕ) (s : MagState)
    (h1 : s.claims.map Prod.snd = List.range s.current) (h2 : s.current ≤ n) :
    (magClaim n w s).claims.map Prod.snd = List.range (magClaim n w s).current ∧
      (magClaim n w s).current ≤ n := by
  rw [magClaim]
  split
  · rename_i hlt
    constructor
    · simp only [List.map_append, List.map_cons, List.map_nil, h1, List.range_succ]
    · show s.current + 1 ≤ n
      omega
  · exact ⟨h1, h2⟩

theorem magFold_invariant (n : ℕ) (sched : List ℕ) :
    ∀ s : MagState, s.claims.map Prod.snd = List.range s.current → s.current ≤ n →
      ((sched.foldl (fun s w => magClaim n w s) s).claims.map Prod.snd
          = List.range (sched.foldl (fun s w => magClaim n w s) s).current ∧
        (sched.foldl (fun s w => magClaim n w s) s).current ≤ n) := by
  induction sched with
  | nil => intro s h1 h2; exact ⟨h1, h2⟩
  | cons w rest ih =>
    intro s h1 h2
    simp only [List.foldl_cons]
    have h := magClaim_invariant n w s h1 h2
    exact ih _ h.1 h.2

/-- C9: in the interleaving model of the magnitude work distribution — each
successful compare-and-swap is one atomic step, a failed one only retries —
for every schedule of claim wins: the claimed item indices are exactly
`0, 1, ..., cursor-1` and pairwise distinct, so no two workers ever own the
same item; the cursor never passes the item count; when a run completes
(cursor equal to the item count) every item has been claimed exactly once and
the outputs, each item being a pure function of its index, are the same list
`[(i, f i) | i < n]` for every completed schedule — in particular a 1-worker
and an N-worker run produce identical outputs. -/
theorem mag_worker_exclusive {α : Type} (n : ℕ) (sched : List ℕ) (f : ℕ → α) :
    ((magRun n sched).claims.map Prod.snd = List.range (magRun n sched).current) ∧
    ((magRun n sched).claims.map Prod.snd).Nodup ∧
    (magRun n sched).current ≤ n ∧
    (∀ w i w' i', (w, i) ∈ (magRun n sched).claims → (w', i') ∈ (magRun n sched).claims →
      (w, i) ≠ (w', i') → i ≠ i') ∧
    ((magRun n sched).current = n →
      magOutputs f (magRun n sched) = (List.range n).map (fun i => (i, f i))) ∧
    (∀ sched', (magRun n sched).current = n → (magRun n sched').current = n →
      magOutputs f (magRun n sched) = magOutputs f (magRun n sched')) := by
  have hinv := magFold_invariant n sched magInit rfl (Nat.zero_le n)
  rw [magRun] at *
  obtain ⟨h1, h2⟩ := hinv
  have hnodup : ((sched.foldl (fun s w => magClaim n w s) magInit).claims.map Prod.snd).Nodup := by
    rw [h1]
    exact List.nodup_range _
  have houtputs : ∀ sc : List ℕ,
      (sc.foldl (fun s w => magClaim n w s) magInit).current = n →
      magOutputs f (sc.foldl (fun s w => magClaim n w s) magInit)
        = (List.range n).map (fun i => (i, f i)) := by
    intro sc hc
    obtain ⟨g1, _⟩ := magFold_invariant n sc magInit rfl (Nat.zero_le n)
    rw [magOutputs]
    have hcomp : (sc.foldl (fun s w => magClaim n w s) magInit).claims.map
        (fun c => (c.2, f c.2))
        = ((sc.foldl (fun s w => magClaim n w s) magInit).claims.map Prod.snd).map
            (fun i => (i, f i)) := by
      rw [List.map_map]
      rfl
    rw [hcomp, g1, hc]
  refine ⟨h1, hnodup, h2, ?_, houtputs sched, ?_⟩
  · intro w i w' i' hm hm' hne hii
    exact hne (List.inj_on_of_nodup_map hnodup hm hm' (by simpa using hii))
  · intro sched' hc hc'
    rw [magRun] at hc' ⊢
    rw [houtputs sched hc, houtputs sched' hc']

theorem mag_worker_exclusive_witness :
    magOutputs (fun i : ℕ => i * i) (magRun 3 [0, 1, 0, 1])
      = (List.range 3).map (fun i => (i, i * i)) :=
  (mag_worker_exclusive 3 [0, 1, 0, 1] (fun i => i * i)).2.2.2.2.1 (by decide)

theorem argmaxAbsAux_of_lt (rest : List ℚ) :
    ∀ i bi bv, (∀ x ∈ rest, |x| < bv) → argmaxAbsAux rest i bi bv = bi := by
  induction rest with
  | nil => intro i bi bv _; rfl
  | cons x rest' ih =>
    intro i bi bv h
    rw [argmaxAbsAux]
    rw [if_neg (not_lt.mpr (le_of_lt (h x (List.mem_cons_self x rest'))))]
    exact ih (i + 1) bi bv (fun y hy => h y (List.mem_cons_of_mem x hy))

theorem argmaxAbsAux_reaches (rest : List ℚ) :
    ∀ i bi bv p, p < rest.length → bv < |rest.getD p 0| →
      (∀ q, q < rest.length → q ≠ p → |rest.getD q 0| < |rest.getD p 0|) →
      argmaxAbsAux rest i bi bv = i + p := by
  induction rest with
  | nil => intro i bi bv p hp; exact absurd hp (by simp)
  | cons x rest' ih =>
    intro i bi bv p hp hbv hq
    cases p with
    | zero =>
      have hx : (x :: rest').getD 0 0 = x := rfl
      rw [hx] at hbv hq
      rw [argmaxAbsAux, if_pos hbv]
      rw [argmaxAbsAux_of_lt rest']
      · omega
      · intro y hy
        obtain ⟨q, hql, rfl⟩ := List.mem_iff_getElem.mp hy
        have := hq (q + 1) (by simpa using Nat.succ_lt_succ hql) (Nat.succ_ne_zero q)
        rw [List.getD_cons_succ, List.getD_eq_getElem _ _ hql] at this
        exact this
    | succ p' =>
      have hp' : p' < rest'.length := by simpa using Nat.lt_of_succ_lt_succ hp
      have hmax' : ∀ q, q < rest'.length → q ≠ p' →
          |rest'.getD q 0| < |rest'.getD p' 0| := by
        intro q hql hne
        have := hq (q + 1) (by simpa using Nat.succ_lt_succ hql)
          (fun hcon => hne (Nat.succ_injective hcon))
        rw [List.getD_cons_succ, List.getD_cons_succ] at this
        exact this
      have hxlt : |x| < |rest'.getD p' 0| := by
        have := hq 0 (Nat.zero_lt_succ _) (by omega)
        rw [List.getD_cons_zero, List.getD_cons_succ] at this
        exact this
      rw [argmaxAbsAux]
      have hbv' : bv < |(x :: rest').getD (p' + 1) 0| := hbv
      rw [List.getD_cons_succ] at hbv'
      split
      · rename_i hlt
        rw [ih (i + 1) i |x| p' hp' hxlt hmax']
        omega
      · rename_i hlt
        have hbv2 : bv < |rest'.getD p' 0| := hbv'
        rw [ih (i + 1) bi bv p' hp' hbv2 hmax']
        omega

theorem argmaxAbs_unique (l : List ℚ) (m : ℕ) (hm : m < l.length)
    (hmax : ∀ j, j < l.length → j ≠ m → |l.getD j 0| < |l.getD m 0|) :
    argmaxAbs l = m := by
  cases l with
  | nil => exact absurd hm (by simp)
  | cons x rest =>
    rw [argmaxAbs]
    cases m with
    | zero =>
      apply argmaxAbsAux_of_lt
      intro y hy
      obtain ⟨q, hql, rfl⟩ := List.mem_iff_getElem.mp hy
      have := hmax (q + 1) (by simpa using Nat.succ_lt_succ hql) (Nat.succ_ne_zero q)
      rw [List.getD_cons_succ, List.getD_cons_zero, List.getD_eq_getElem _ _ hql] at this
      exact this
    | succ m' =>
      have hm' : m' < rest.length := by simpa using Nat.lt_of_succ_lt_succ hm
      have hxlt : |x| < |rest.getD m' 0| := by
        have := hmax 0 (Nat.zero_lt_succ _) (by omega)
        rw [List.getD_cons_zero, List.getD_cons_succ] at this
        exact this
      have hmax' : ∀ q, q < rest.length → q ≠ m' →
          |rest.getD q 0| < |rest.getD m' 0| := by
        intro q hql hne
        have := hmax (q + 1) (by simpa using Nat.succ_lt_succ hql) (by omega)
        rw [List.getD_cons_succ, List.getD_cons_succ] at this
        exact this
      rw [argmaxAbsAux_reaches rest 1 0 |x| m' hm' hxlt hmax']
      omega

/-- A synthetic impulse: a single unit sample at index `k`, silence
elsewhere. -/
def unitImpulse (n k : ℕ) : List ℚ :=
  (List.range n).map fun j => if j = k then 1 else 0

theorem unitImpulse_length (n k : ℕ) : (unitImpulse n k).length = n := by
  simp [unitImpulse]

theorem unitImpulse_getD (n k i : ℕ) (hk : k < n) :
    (unitImpulse n k).getD i 0 = if i = k then 1 else 0 := by
  by_cases hi : i < n
  · rw [unitImpulse, List.getD_eq_getElem _ _ (by simpa using hi)]
    simp
  · rw [List.getD_eq_default _ _ (by rw [unitImpulse_length]; omega)]
    rw [if_neg (by omega)]

theorem upsample10_length (h : List ℚ) : (upsample10 h).length = 10 * h.length := by
  simp [upsample10, OnsetRateMultiple]

theorem upsample10_getD (h : List ℚ) (j : ℕ) (hj : j < 10 * h.length) :
    (upsample10 h).getD j 0
      = (1 - ((j % 10 : ℕ) : ℚ) / 10) * h.getD (j / 10) 0
          + (((j % 10 : ℕ) : ℚ) / 10) * h.getD (j / 10 + 1) 0 := by
  rw [upsample10]
  rw [List.getD_eq_getElem _ _ (by simpa [OnsetRateMultiple] using hj)]
  simp [OnsetRateMultiple]

theorem upsample_unit_at_peak (n k : ℕ) (hk : k < n) :
    (upsample10 (unitImpulse n k)).getD (10 * k) 0 = 1 := by
  rw [upsample10_getD _ _ (by rw [unitImpulse_length]; omega)]
  have h1 : 10 * k % 10 = 0 := by omega
  have h2 : 10 * k / 10 = k := by omega
  rw [h1, h2, unitImpulse_getD n k k hk, unitImpulse_getD n k (k + 1) hk]
  rw [if_pos rfl, if_neg (by omega)]
  norm_num

theorem upsample_unit_off_peak (n k j : ℕ) (hk : k < n) (hj : j < 10 * n)
    (hne : j ≠ 10 * k) : |(upsample10 (unitImpulse n k)).getD j 0| < 1 := by
  rw [upsample10_getD _ _ (by rw [unitImpulse_length]; omega)]
  rw [unitImpulse_getD n k _ hk, unitImpulse_getD n k _ hk]
  have hdm : 10 * (j / 10) + j % 10 = j := Nat.div_add_mod j 10
  have hr : j % 10 < 10 := Nat.mod_lt _ (by norm_num)
  have hrq : ((j % 10 : ℕ) : ℚ) ≤ 9 := by exact_mod_cast Nat.le_of_lt_succ hr
  have hr0 : (0 : ℚ) ≤ ((j % 10 : ℕ) : ℚ) := Nat.cast_nonneg _
  by_cases hq : j / 10 = k
  · have hrne : j % 10 ≠ 0 := by omega
    have hrq1 : (1 : ℚ) ≤ ((j % 10 : ℕ) : ℚ) := by
      exact_mod_cast Nat.one_le_iff_ne_zero.mpr hrne
    rw [if_pos hq, if_neg (by omega)]
    have heq : (1 - ((j % 10 : ℕ) : ℚ) / 10) * 1 + ((j % 10 : ℕ) : ℚ) / 10 * 0
        = 1 - ((j % 10 : ℕ) : ℚ) / 10 := by ring
    rw [heq, abs_lt]
    constructor <;> linarith
  · rw [if_neg hq]
    by_cases hq1 : j / 10 + 1 = k
    · rw [if_pos hq1]
      have heq : (1 - ((j % 10 : ℕ) : ℚ) / 10) * 0 + ((j % 10 : ℕ) : ℚ) / 10 * 1
          = ((j % 10 : ℕ) : ℚ) / 10 := by ring
      rw [heq, abs_lt]
      constructor <;> linarith
    · rw [if_neg hq1]
      norm_num

theorem calcHrirOnset_formula (rate : ℕ) (h : List ℚ) :
    calcHrirOnset rate h = (argmaxAbs (upsample10 h) : ℚ) / (10 * (rate : ℚ)) := by
  rw [calcHrirOnset]
  norm_num [OnsetRateMultiple]

theorem onset_unit_impulse (n k rate : ℕ) (hk : k < n) (hrate : 0 < rate) :
    calcHrirOnset rate (unitImpulse n k) = (k : ℚ) / (rate : ℚ) ∧
      |calcHrirOnset rate (unitImpulse n k) - (k : ℚ) / (rate : ℚ)|
        ≤ 1 / (10 * (rate : ℚ)) := by
  have hulen : (upsample10 (unitImpulse n k)).length = 10 * n := by
    rw [upsample10_length, unitImpulse_length]
  have hargmax : argmaxAbs (upsample10 (unitImpulse n k)) = 10 * k := by
    apply argmaxAbs_unique
    · rw [hulen]; omega
    · intro j hjl hne
      rw [hulen] at hjl
      rw [upsample_unit_at_peak n k hk, abs_one]
      exact upsample_unit_off_peak n k j hk hjl hne
  have hcalc : calcHrirOnset rate (unitImpulse n k) = (k : ℚ) / (rate : ℚ) := by
    rw [calcHrirOnset_formula, hargmax]
    push_cast
    rw [mul_div_mul_left _ _ (by norm_num : (10 : ℚ) ≠ 0)]
  refine ⟨hcalc, ?_⟩
  rw [hcalc, sub_self, abs_zero]
  positivity

theorem getAz_applyOnsets (st : HrirDataT) (fi ei ai : ℕ)
    (hfi : fi < st.mFds.length)
    (hei : ei < (st.mFds.getD fi default).mEvs.length)
    (hai : ai < ((st.mFds.getD fi default).mEvs.getD ei default).mAzs.length)
    (hstart : (st.mFds.getD fi default).mEvStart ≤ ei) :
    getAz (applyOnsets st) fi ei ai = onsetAz st (getAz st fi ei ai) := by
  have e1 : (st.mFds.map (onsetField st)).getD fi default
      = onsetField st (st.mFds.getD fi default) := by
    rw [List.getD_eq_getElem _ _ (by simpa using hfi), List.getElem_map,
      List.getD_eq_getElem _ _ hfi]
  have e2 : (onsetField st (st.mFds.getD fi default)).mEvs.getD ei default
      = HrirEvT.mk
          (((st.mFds.getD fi default).mEvs.getD ei default).mAzs.map (onsetAz st)) := by
    rw [onsetField]
    simp only
    rw [List.getD_eq_getElem _ _ (by simpa [List.length_mapIdx] using hei),
      List.getElem_mapIdx]
    rw [if_neg (not_lt.mpr hstart)]
    rw [List.getD_eq_getElem _ _ hei]
  have e3 : (HrirEvT.mk
        (((st.mFds.getD fi default).mEvs.getD ei default).mAzs.map (onsetAz st))).mAzs.getD
          ai default
      = onsetAz st (((st.mFds.getD fi default).mEvs.getD ei default).mAzs.getD ai default) := by
    simp only
    rw [List.getD_eq_getElem _ _ (by simpa using hai), List.getElem_map,
      List.getD_eq_getElem _ _ hai]
  rw [getAz, getAz, applyOnsets]
  simp only
  rw [e1, e2, e3]

/-- C6: the onset step adds to each populated, non-mirrored slot's recorded
per-channel delay the value `argmax / (10 * rate)`, where `argmax` is the
index of maximum absolute amplitude in the impulse upsampled by the fixed
10x multiple; and for a synthetic impulse with a single unit sample at index
`k < points` the estimated onset is exactly `k / rate`, in particular within
`1 / (10 * rate)` of it. -/
theorem onset_estimator (st : HrirDataT) (fi ei ai ti n k rate : ℕ)
    (hfi : fi < st.mFds.length)
    (hei : ei < (st.mFds.getD fi default).mEvs.length)
    (hai : ai < ((st.mFds.getD fi default).mEvs.getD ei default).mAzs.length)
    (hstart : (st.mFds.getD fi default).mEvStart ≤ ei)
    (hti : ti < st.channels) (hk : k < n) (hrate : 0 < rate) :
    ((getAz (applyOnsets st) fi ei ai).mDelays ti
      = (getAz st fi ei ai).mDelays ti
        + (argmaxAbs (upsample10 (slotHrir st (getAz st fi ei ai).mIndex ti)) : ℚ)
            / (10 * (st.mIrRate : ℚ))) ∧
    calcHrirOnset rate (unitImpulse n k) = (k : ℚ) / (rate : ℚ) ∧
    |calcHrirOnset rate (unitImpulse n k) - (k : ℚ) / (rate : ℚ)|
      ≤ 1 / (10 * (rate : ℚ)) := by
  obtain ⟨h1, h2⟩ := onset_unit_impulse n k rate hk hrate
  refine ⟨?_, h1, h2⟩
  rw [getAz_applyOnsets st fi ei ai hfi hei hai hstart, onsetAz]
  simp only [if_pos hti]
  rw [calcHrirOnset_formula]

theorem onset_estimator_witness :
    ((getAz (applyOnsets exStSet) 0 0 0).mDelays 0
      = (getAz exStSet 0 0 0).mDelays 0
        + (argmaxAbs (upsample10 (slotHrir exStSet (getAz exStSet 0 0 0).mIndex 0)) : ℚ)
            / (10 * (exStSet.mIrRate : ℚ))) ∧
    calcHrirOnset 48000 (unitImpulse 4 2) = (2 : ℚ) / (48000 : ℚ) ∧
    |calcHrirOnset 48000 (unitImpulse 4 2) - (2 : ℚ) / (48000 : ℚ)|
      ≤ 1 / (10 * (48000 : ℚ)) :=
  onset_estimator exStSet 0 0 0 0 4 2 48000 (by decide) (by decide) (by decide)
    (by decide) (by decide) (by decide) (by decide)

theorem scanSrate_dup_dim (attrs : List MySofaAttr) :
    ∀ d u msgs, (∃ v, d = some v) → (∃ a ∈ attrs, a.name = "DIMENSION_LIST") →
      (scanSrateAttrs attrs d u msgs).2 = none := by
  induction attrs with
  | nil =>
    rintro d u msgs _ ⟨a, ha, _⟩
    exact absurd ha (List.not_mem_nil a)
  | cons a rest ih =>
    rintro d u msgs ⟨v, rfl⟩ hex
    simp only [scanSrateAttrs]
    by_cases hdl : a.name = "DIMENSION_LIST"
    · rw [if_pos hdl]
    · rw [if_neg hdl]
      have hrest : ∃ b ∈ rest, b.name = "DIMENSION_LIST" := by
        obtain ⟨b, hb, hbn⟩ := hex
        rcases List.mem_cons.mp hb with rfl | hbr
        · exact absurd hbn hdl
        · exact ⟨b, hbr, hbn⟩
      by_cases hu : a.name = "Units"
      · rw [if_pos hu]
        cases u with
        | some _ => rfl
        | none => exact ih _ _ _ ⟨v, rfl⟩ hrest
      · rw [if_neg hu]
        exact ih _ _ _ ⟨v, rfl⟩ hrest

theorem scanSrate_dup_units (attrs : List MySofaAttr) :
    ∀ d u msgs, (∃ v, u = some v) → (∃ a ∈ attrs, a.name = "Units") →
      (scanSrateAttrs attrs d u msgs).2 = none := by
  induction attrs with
  | nil =>
    rintro d u msgs _ ⟨a, ha, _⟩
    exact absurd ha (List.not_mem_nil a)
  | cons a rest ih =>
    rintro d u msgs ⟨v, rfl⟩ hex
    simp only [scanSrateAttrs]
    by_cases hdl : a.name = "DIMENSION_LIST"
    · rw [if_pos hdl]
      have hrest : ∃ b ∈ rest, b.name = "Units" := by
        obtain ⟨b, hb, hbn⟩ := hex
        rcases List.mem_cons.mp hb with rfl | hbr
        · rw [hbn] at hdl
          exact absurd hdl (by decide)
        · exact ⟨b, hbr, hbn⟩
      cases d with
      | some _ => rfl
      | none => exact ih _ _ _ ⟨v, rfl⟩ hrest
    · rw [if_neg hdl]
      by_cases hu : a.name = "Units"
      · rw [if_pos hu]
      · rw [if_neg hu]
        have hrest : ∃ b ∈ rest, b.name = "Units" := by
          obtain ⟨b, hb, hbn⟩ := hex
          rcases List.mem_cons.mp hb with rfl | hbr
          · exact absurd hbn hu
          · exact ⟨b, hbr, hbn⟩
        exact ih _ _ _ ⟨v, rfl⟩ hrest

theorem scanSrate_two_dims (attrs : List MySofaAttr) :
    ∀ u msgs, 2 ≤ attrs.countP (fun a => decide (a.name = "DIMENSION_LIST")) →
      (scanSrateAttrs attrs none u msgs).2 = none := by
  induction attrs with
  | nil =>
    intro u msgs h
    simp at h
  | cons a rest ih =>
    intro u msgs h
    simp only [scanSrateAttrs]
    by_cases hdl : a.name = "DIMENSION_LIST"
    · rw [if_pos hdl]
      apply scanSrate_dup_dim rest _ _ _ ⟨a.value, rfl⟩
      have hcnt : 1 ≤ rest.countP (fun a => decide (a.name = "DIMENSION_LIST")) := by
        rw [List.countP_cons_of_pos _ _ (by simpa using hdl)] at h
        omega
      have hpos : 0 < rest.countP (fun a => decide (a.name = "DIMENSION_LIST")) := by
        omega
      obtain ⟨b, hb, hbn⟩ := List.countP_pos_iff.mp hpos
      exact ⟨b, hb, by simpa using hbn⟩
    · rw [if_neg hdl]
      have h2 : 2 ≤ rest.countP (fun a => decide (a.name = "DIMENSION_LIST")) := by
        rw [List.countP_cons_of_neg _ _ (by simpa using hdl)] at h
        exact h
      by_cases hu : a.name = "Units"
      · rw [if_pos hu]
        cases u with
        | some _ => rfl
        | none => exact ih _ _ h2
      · rw [if_neg hu]
        exact ih _ _ h2

theorem scanSrate_two_units (attrs : List MySofaAttr) :
    ∀ d msgs, 2 ≤ attrs.countP (fun a => decide (a.name = "Units")) →
      (scanSrateAttrs attrs d none msgs).2 = none := by
  induction attrs with
  | nil =>
    intro d msgs h
    simp at h
  | cons a rest ih =>
    intro d msgs h
    simp only [scanSrateAttrs]
    by_cases hdl : a.name = "DIMENSION_LIST"
    · rw [if_pos hdl]
      have h2 : 2 ≤ rest.countP (fun a => decide (a.name = "Units")) := by
        rw [List.countP_cons_of_neg _ _ (by simp [hdl])] at h
        exact h
      cases d with
      | some _ => rfl
      | none => exact ih _ _ h2
    · rw [if_neg hdl]
      by_cases hu : a.name = "Units"
      · rw [if_pos hu]
        apply scanSrate_dup_units rest _ _ _ ⟨a.value, rfl⟩
        have hcnt : 1 ≤ rest.countP (fun a => decide (a.name = "Units")) := by
          rw [List.countP_cons_of_pos _ _ (by simpa using hu)] at h
          omega
        have hpos : 0 < rest.countP (fun a => decide (a.name = "Units")) := by omega
        obtain ⟨b, hb, hbn⟩ := List.countP_pos_iff.mp hpos
        exact ⟨b, hb, by simpa using hbn⟩
      · rw [if_neg hu]
        have h2 : 2 ≤ rest.countP (fun a => decide (a.name = "Units")) := by
          rw [List.countP_cons_of_neg _ _ (by simpa using hu)] at h
          exact h
        exact ih _ _ h2

theorem scanDim_dup (dupMsg otherMsg : String) (attrs : List MySofaAttr) :
    ∀ d msgs, (∃ v, d = some v) → (∃ a ∈ attrs, a.name = "DIMENSION_LIST") →
      (scanDimAttrs dupMsg otherMsg attrs d msgs).2 = none := by
  induction attrs with
  | nil =>
    rintro d msgs _ ⟨a, ha, _⟩
    exact absurd ha (List.not_mem_nil a)
  | cons a rest ih =>
    rintro d msgs ⟨v, rfl⟩ hex
    simp only [scanDimAttrs]
    by_cases hdl : a.name = "DIMENSION_LIST"
    · rw [if_pos hdl]
    · rw [if_neg hdl]
      have hrest : ∃ b ∈ rest, b.name = "DIMENSION_LIST" := by
        obtain ⟨b, hb, hbn⟩ := hex
        rcases List.mem_cons.mp hb with rfl | hbr
        · exact absurd hbn hdl
        · exact ⟨b, hbr, hbn⟩
      exact ih _ _ ⟨v, rfl⟩ hrest

theorem scanDim_two (dupMsg otherMsg : String) (attrs : List MySofaAttr) :
    ∀ msgs, 2 ≤ attrs.countP (fun a => decide (a.name = "DIMENSION_LIST")) →
      (scanDimAttrs dupMsg otherMsg attrs none msgs).2 = none := by
  induction attrs with
  | nil =>
    intro msgs h
    simp at h
  | cons a rest ih =>
    intro msgs h
    simp only [scanDimAttrs]
    by_cases hdl : a.name = "DIMENSION_LIST"
    · rw [if_pos hdl]
      apply scanDim_dup dupMsg otherMsg rest _ _ ⟨a.value, rfl⟩
      have hcnt : 1 ≤ rest.countP (fun a => decide (a.name = "DIMENSION_LIST")) := by
        rw [List.countP_cons_of_pos _ _ (by simpa using hdl)] at h
        omega
      have hpos : 0 < rest.countP (fun a => decide (a.name = "DIMENSION_LIST")) := by
        omega
      obtain ⟨b, hb, hbn⟩ := List.countP_pos_iff.mp hpos
      exact ⟨b, hb, by simpa using hbn⟩
    · rw [if_neg hdl]
      have h2 : 2 ≤ rest.countP (fun a => decide (a.name = "DIMENSION_LIST")) := by
        rw [List.countP_cons_of_neg _ _ (by simpa using hdl)] at h
        exact h
      exact ih _ h2

/-- C8 counterexample: an unexpected attribute on the sample-rate array only
emits a diagnostic; the sample rate still resolves to a nonzero value and the
metadata gate passes, so the load does not abort — contradicting the claim
that an unexpected metadata attribute is fatal to the load. -/
theorem unexpected_attribute_not_fatal :
    getSampleRate 32000 96000
        [⟨"DIMENSION_LIST", "I"⟩, ⟨"Units", "hertz"⟩, ⟨"Comment", "note"⟩] 48000
      = (["Unexpected sample rate attribute: Comment"], 48000) ∧
    sofaMetadataOk 32000 96000
        [⟨"DIMENSION_LIST", "I"⟩, ⟨"Units", "hertz"⟩, ⟨"Comment", "note"⟩]
        [⟨"DIMENSION_LIST", "M,R"⟩] [⟨"DIMENSION_LIST", "M,R,N"⟩] 48000 = true := by
  have hsr : getSampleRate 32000 96000
      [⟨"DIMENSION_LIST", "I"⟩, ⟨"Units", "hertz"⟩, ⟨"Comment", "note"⟩] 48000
      = (["Unexpected sample rate attribute: Comment"], 48000) := by
    decide
  refine ⟨hsr, ?_⟩
  have hcr : croundUint (48000 : ℚ) = 48000 := by
    rw [croundUint, cround, if_pos (by norm_num)]
    have hr : round (48000 : ℚ) = 48000 := by norm_num [round_eq]
    rw [hr]
    decide
  have hdelay : (prepareDelay [⟨"DIMENSION_LIST", "M,R"⟩]).2.isSome = true := by decide
  have hir : (checkIrData [⟨"DIMENSION_LIST", "M,R,N"⟩]).2 = true := by decide
  rw [sofaMetadataOk, hsr]
  simp [hcr, hdelay, hir]

theorem getSampleRate_of_scan (minR maxR : ℚ) (attrs : List MySofaAttr) (v : ℚ)
    (msgs2 : List String) (d2 u2 : Option String)
    (hscan : scanSrateAttrs attrs none none [] = (msgs2, some (d2, u2))) :
    getSampleRate minR maxR attrs v
      = match d2 with
        | none => (msgs2 ++ ["Missing sample rate dimensions"], 0)
        | some dim =>
          if dim ≠ "I" then (msgs2 ++ ["Unsupported sample rate dimensions: " ++ dim], 0)
          else
            match u2 with
            | none => (msgs2 ++ ["Missing sample rate unit type"], 0)
            | some units =>
              if units ≠ "hertz" then
                (msgs2 ++ ["Unsupported sample rate unit type: " ++ units], 0)
              else if v < minR ∨ maxR < v then
                (msgs2 ++ ["Sample rate out of range"], 0)
              else (msgs2, v) := by
  simp only [getSampleRate, hscan]
  cases d2 with
  | none => rfl
  | some dim =>
    cases u2 with
    | none => rfl
    | some units => rfl

/-- C8 (amended): a duplicate `DIMENSION_LIST` or `Units` attribute on the
sample-rate, delay, or impulse-response arrays, an unsupported dimensionality
string, and an out-of-range sample rate each force the failing result of the
corresponding metadata check, and any failing metadata check makes the
metadata gate of the load return failure; an unexpected attribute, by
contrast, only appends a diagnostic and the scan continues. -/
theorem metadata_errors_abort (minR maxR : ℚ) (attrs da ia : List MySofaAttr)
    (v : ℚ) (a : MySofaAttr) (d u : Option String) (msgs : List String)
    (dupMsg otherMsg : String) :
    (2 ≤ attrs.countP (fun x => decide (x.name = "DIMENSION_LIST")) →
      (getSampleRate minR maxR attrs v).2 = 0) ∧
    (2 ≤ attrs.countP (fun x => decide (x.name = "Units")) →
      (getSampleRate minR maxR attrs v).2 = 0) ∧
    (∀ msgs2 dim u2,
      scanSrateAttrs attrs none none [] = (msgs2, some (some dim, u2)) →
      dim ≠ "I" → (getSampleRate minR maxR attrs v).2 = 0) ∧
    (∀ msgs2 d2 units,
      scanSrateAttrs attrs none none [] = (msgs2, some (d2, some units)) →
      units ≠ "hertz" → (getSampleRate minR maxR attrs v).2 = 0) ∧
    (v < minR ∨ maxR < v → (getSampleRate minR maxR attrs v).2 = 0) ∧
    (a.name ≠ "DIMENSION_LIST" → a.name ≠ "Units" →
      scanSrateAttrs (a :: attrs) d u msgs
        = scanSrateAttrs attrs d u
            (msgs ++ ["Unexpected sample rate attribute: " ++ a.name])) ∧
    (a.name ≠ "DIMENSION_LIST" →
      scanDimAttrs dupMsg otherMsg (a :: attrs) d msgs
        = scanDimAttrs dupMsg otherMsg attrs d (msgs ++ [otherMsg ++ a.name])) ∧
    (2 ≤ da.countP (fun x => decide (x.name = "DIMENSION_LIST")) →
      (prepareDelay da).2 = none) ∧
    (∀ msgs2 dim,
      scanDimAttrs "Duplicate Delay.DIMENSION_LIST" "Unexpected delay attribute: "
          da none [] = (msgs2, some (some dim)) →
      dim ≠ "I,R" → dim ≠ "M,R" → (prepareDelay da).2 = none) ∧
    (2 ≤ ia.countP (fun x => decide (x.name = "DIMENSION_LIST")) →
      (checkIrData ia).2 = false) ∧
    (∀ msgs2 dim,
      scanDimAttrs "Duplicate IR.DIMENSION_LIST" "Unexpected IR attribute: "
          ia none [] = (msgs2, some (some dim)) →
      dim ≠ "M,R,N" → (checkIrData ia).2 = false) ∧
    ((getSampleRate minR maxR attrs v).2 = 0 →
      sofaMetadataOk minR maxR attrs da ia v = false) ∧
    ((prepareDelay da).2 = none → sofaMetadataOk minR maxR attrs da ia v = false) ∧
    ((checkIrData ia).2 = false → sofaMetadataOk minR maxR attrs da ia v = false) := by
  refine ⟨?_, ?_, ?_, ?_, ?_, ?_, ?_, ?_, ?_, ?_, ?_, ?_, ?_, ?_⟩
  · intro h
    rcases hscan : scanSrateAttrs attrs none none [] with ⟨msgs2, res⟩
    have h0 := scanSrate_two_dims attrs none [] h
    rw [hscan] at h0
    have hres : res = none := h0
    subst hres
    simp only [getSampleRate, hscan]
  · intro h
    rcases hscan : scanSrateAttrs attrs none none [] with ⟨msgs2, res⟩
    have h0 := scanSrate_two_units attrs none [] h
    rw [hscan] at h0
    have hres : res = none := h0
    subst hres
    simp only [getSampleRate, hscan]
  · intro msgs2 dim u2 hscan hne
    simp only [getSampleRate, hscan]
    rw [if_pos hne]
  · intro msgs2 d2 units hscan hne
    rw [getSampleRate_of_scan minR maxR attrs v msgs2 d2 (some units) hscan]
    cases d2 with
    | none => rfl
    | some dim =>
      show (if dim ≠ "I" then _ else
        if units ≠ "hertz" then
          (msgs2 ++ ["Unsupported sample rate unit type: " ++ units], (0 : ℚ))
        else if v < minR ∨ maxR < v then (msgs2 ++ ["Sample rate out of range"], 0)
        else (msgs2, v)).2 = 0
      by_cases hdim : dim ≠ "I"
      · rw [if_pos hdim]
      · rw [if_neg hdim]
        rw [if_pos hne]
  · intro hv
    rcases hscan : scanSrateAttrs attrs none none [] with ⟨msgs2, res⟩
    rcases res with _ | ⟨d2, u2⟩
    · simp only [getSampleRate, hscan]
    · rw [getSampleRate_of_scan minR maxR attrs v msgs2 d2 u2 hscan]
      cases d2 with
      | none => rfl
      | some dim =>
        cases u2 with
        | none =>
          show (if dim ≠ "I" then _ else
            (msgs2 ++ ["Missing sample rate unit type"], (0 : ℚ))).2 = 0
          by_cases hdim : dim ≠ "I"
          · rw [if_pos hdim]
          · rw [if_neg hdim]
        | some units =>
          show (if dim ≠ "I" then _ else
            if units ≠ "hertz" then
              (msgs2 ++ ["Unsupported sample rate unit type: " ++ units], (0 : ℚ))
            else if v < minR ∨ maxR < v then (msgs2 ++ ["Sample rate out of range"], 0)
            else (msgs2, v)).2 = 0
          by_cases hdim : dim ≠ "I"
          · rw [if_pos hdim]
          · rw [if_neg hdim]
            by_cases hun : units ≠ "hertz"
            · rw [if_pos hun]
            · rw [if_neg hun]
              rw [if_pos hv]
  · intro h1 h2
    simp only [scanSrateAttrs]
    rw [if_neg h1, if_neg h2]
  · intro h1
    simp only [scanDimAttrs]
    rw [if_neg h1]
  · intro h
    rcases hscan : scanDimAttrs "Duplicate Delay.DIMENSION_LIST"
        "Unexpected delay attribute: " da none [] with ⟨msgs2, res⟩
    have h0 := scanDim_two "Duplicate Delay.DIMENSION_LIST"
      "Unexpected delay attribute: " da [] h
    rw [hscan] at h0
    have hres : res = none := h0
    subst hres
    simp only [prepareDelay, hscan]
  · intro msgs2 dim hscan hne1 hne2
    simp only [prepareDelay, hscan]
    rw [if_neg hne1, if_neg hne2]
  · intro h
    rcases hscan : scanDimAttrs "Duplicate IR.DIMENSION_LIST"
        "Unexpected IR attribute: " ia none [] with ⟨msgs2, res⟩
    have h0 := scanDim_two "Duplicate IR.DIMENSION_LIST"
      "Unexpected IR attribute: " ia [] h
    rw [hscan] at h0
    have hres : res = none := h0
    subst hres
    simp only [checkIrData, hscan]
  · intro msgs2 dim hscan hne
    simp only [checkIrData, hscan]
    rw [if_pos hne]
  · intro h
    simp [sofaMetadataOk, h, croundUint_zero]
  · intro h
    simp [sofaMetadataOk, h]
  · intro h
    simp [sofaMetadataOk, h]

theorem metadata_errors_abort_witness :
    (getSampleRate 32000 96000
        [⟨"DIMENSION_LIST", "I"⟩, ⟨"DIMENSION_LIST", "I"⟩] 48000).2 = 0 ∧
    (prepareDelay [⟨"DIMENSION_LIST", "X"⟩]).2 = none ∧
    (checkIrData [⟨"DIMENSION_LIST", "M,R"⟩]).2 = false ∧
    sofaMetadataOk 32000 96000 [⟨"DIMENSION_LIST", "I"⟩, ⟨"DIMENSION_LIST", "I"⟩]
      [⟨"DIMENSION_LIST", "X"⟩] [⟨"DIMENSION_LIST", "M,R"⟩] 48000 = false :=
  ⟨(metadata_errors_abort 32000 96000
      [⟨"DIMENSION_LIST", "I"⟩, ⟨"DIMENSION_LIST", "I"⟩] [⟨"DIMENSION_LIST", "X"⟩]
      [⟨"DIMENSION_LIST", "M,R"⟩] 48000 ⟨"n", "v"⟩ none none [] "d" "o").1 (by decide),
   (metadata_errors_abort 32000 96000
      [⟨"DIMENSION_LIST", "I"⟩, ⟨"DIMENSION_LIST", "I"⟩] [⟨"DIMENSION_LIST", "X"⟩]
      [⟨"DIMENSION_LIST", "M,R"⟩] 48000 ⟨"n", "v"⟩ none none [] "d"
      "o").2.2.2.2.2.2.2.2.1 [] "X" (by decide) (by decide) (by decide),
   (metadata_errors_abort 32000 96000
      [⟨"DIMENSION_LIST", "I"⟩, ⟨"DIMENSION_LIST", "I"⟩] [⟨"DIMENSION_LIST", "X"⟩]
      [⟨"DIMENSION_LIST", "M,R"⟩] 48000 ⟨"n", "v"⟩ none none [] "d"
      "o").2.2.2.2.2.2.2.2.2.2.1 [] "M,R" (by decide) (by decide),
   (metadata_errors_abort 32000 96000
      [⟨"DIMENSION_LIST", "I"⟩, ⟨"DIMENSION_LIST", "I"⟩] [⟨"DIMENSION_LIST", "X"⟩]
      [⟨"DIMENSION_LIST", "M,R"⟩] 48000 ⟨"n", "v"⟩ none none [] "d"
      "o").2.2.2.2.2.2.2.2.2.2.2.1
     ((metadata_errors_abort 32000 96000
        [⟨"DIMENSION_LIST", "I"⟩, ⟨"DIMENSION_LIST", "I"⟩] [⟨"DIMENSION_LIST", "X"⟩]
        [⟨"DIMENSION_LIST", "M,R"⟩] 48000 ⟨"n", "v"⟩ none none [] "d" "o").1
        (by decide))⟩

end LoadSofa

